import Mathlib

/-!
Verification development for the authority-extended rune indexing core.

Scripts (`ScriptBuf`) are modelled as lists of bytes (`List Nat`, each element a
byte value).  `u128`/`Lot` quantities are modelled as `Nat` (the code treats
overflow as a programmer error, and all operations used here are `+`, `-` with
checked underflow, `*`, `/`, `%`).  Hash maps with `entry(..).or_default()`
semantics are modelled as total functions defaulting to `0`.
-/

/-- Byte value of `OP_PUSHNUM_1`. -/
def OP_PUSHNUM_1 : Nat := 81

/-- Byte value of `OP_PUSHBYTES_0`. -/
def OP_PUSHBYTES_0 : Nat := 0

/-- Byte value of `OP_RETURN`. -/
def OP_RETURN : Nat := 106

/-- A scriptPubKey, as its raw byte list. -/
abbrev Script := List Nat

/-- Mirrors `ScriptBuf::is_op_return` (first byte is `OP_RETURN`). -/
def Script.isOpReturn (s : Script) : Bool := s.headD 0 == OP_RETURN && s.length ≥ 1

/-- Mirrors `ordinals::CompactScriptKind`. -/
inductive CompactScriptKind
  | P2TR
  | P2WPKH
  | P2WSH
deriving DecidableEq, Repr

/-- The `as u8` value of a `CompactScriptKind` (discriminants 0, 1, 2). -/
def CompactScriptKind.toByte : CompactScriptKind → Nat
  | .P2TR => 0
  | .P2WPKH => 1
  | .P2WSH => 2

/-- Mirrors `ordinals::CompactScript`. -/
structure CompactScript where
  kind : CompactScriptKind
  body : List Nat
deriving DecidableEq, Repr

/-- Mirrors `CompactScript::try_from_script`.

The source checks, in order: `bytes.len() == 34 && bytes[0] == OP_PUSHNUM_1 &&
bytes[1] == 32` (P2TR); then `bytes.len() >= 2 && bytes[0] == OP_PUSHBYTES_0`
with `body_len = bytes[1]`, `body_len <= 32 && bytes.len() == 2 + body_len`,
matching `body_len` against 20 (P2WPKH) and 32 (P2WSH). -/
def CompactScript.tryFromScript : Script → Option CompactScript
  | b0 :: b1 :: rest =>
    if b0 = OP_PUSHNUM_1 ∧ b1 = 32 ∧ rest.length = 32 then
      some ⟨.P2TR, rest⟩
    else if b0 = OP_PUSHBYTES_0 ∧ b1 ≤ 32 ∧ rest.length = b1 then
      if b1 = 20 then some ⟨.P2WPKH, rest⟩
      else if b1 = 32 then some ⟨.P2WSH, rest⟩
      else none
    else none
  | _ => none

/-- Mirrors `CompactScript::to_script`.

`script::Builder::push_slice` on a body of length `1..=32` (strictly below
`OP_PUSHDATA1`) emits the length byte followed by the body. -/
def CompactScript.toScript (c : CompactScript) : Option Script :=
  if c.body.length = 0 ∨ c.body.length > 32 then none
  else match c.kind with
    | .P2TR => some (OP_PUSHNUM_1 :: c.body.length :: c.body)
    | .P2WPKH => some (OP_PUSHBYTES_0 :: c.body.length :: c.body)
    | .P2WSH => some (OP_PUSHBYTES_0 :: c.body.length :: c.body)

/-- The three convertible scriptPubKey forms: `OP_1 PUSH(32)`, `OP_0 PUSH(20)`,
`OP_0 PUSH(32)`. -/
def IsCompactForm (s : Script) : Prop :=
  (∃ b : List Nat, b.length = 32 ∧ s = OP_PUSHNUM_1 :: 32 :: b) ∨
  (∃ b : List Nat, b.length = 20 ∧ s = OP_PUSHBYTES_0 :: 20 :: b) ∨
  (∃ b : List Nat, b.length = 32 ∧ s = OP_PUSHBYTES_0 :: 32 :: b)

lemma tryFromScript_p2tr (b : List Nat) (hb : b.length = 32) :
    CompactScript.tryFromScript (OP_PUSHNUM_1 :: 32 :: b) = some ⟨.P2TR, b⟩ := by
  simp [CompactScript.tryFromScript, hb]

lemma tryFromScript_p2wpkh (b : List Nat) (hb : b.length = 20) :
    CompactScript.tryFromScript (OP_PUSHBYTES_0 :: 20 :: b) = some ⟨.P2WPKH, b⟩ := by
  simp [CompactScript.tryFromScript, hb, OP_PUSHNUM_1, OP_PUSHBYTES_0]

lemma tryFromScript_p2wsh (b : List Nat) (hb : b.length = 32) :
    CompactScript.tryFromScript (OP_PUSHBYTES_0 :: 32 :: b) = some ⟨.P2WSH, b⟩ := by
  simp [CompactScript.tryFromScript, hb, OP_PUSHNUM_1, OP_PUSHBYTES_0]

lemma tryFromScript_some_form (s : Script) (c : CompactScript)
    (h : CompactScript.tryFromScript s = some c) : IsCompactForm s := by
  match s with
  | [] => simp [CompactScript.tryFromScript] at h
  | [b0] => simp [CompactScript.tryFromScript] at h
  | b0 :: b1 :: rest =>
    simp only [CompactScript.tryFromScript] at h
    by_cases h1 : b0 = OP_PUSHNUM_1 ∧ b1 = 32 ∧ rest.length = 32
    · exact Or.inl ⟨rest, h1.2.2, by rw [h1.1, h1.2.1]⟩
    · rw [if_neg h1] at h
      by_cases h2 : b0 = OP_PUSHBYTES_0 ∧ b1 ≤ 32 ∧ rest.length = b1
      · rw [if_pos h2] at h
        by_cases h20 : b1 = 20
        · exact Or.inr (Or.inl ⟨rest, by omega, by rw [h2.1, h20]⟩)
        · rw [if_neg h20] at h
          by_cases h32 : b1 = 32
          · exact Or.inr (Or.inr ⟨rest, by omega, by rw [h2.1, h32]⟩)
          · rw [if_neg h32] at h; exact absurd h (by simp)
      · rw [if_neg h2] at h; exact absurd h (by simp)

/-- C4.  CompactScript roundtrip: each of the three forms converts to a
`CompactScript` of the corresponding kind whose `to_script` reproduces the
original bytes, and every script not of the three forms converts to `none`. -/
theorem compact_script_roundtrip (s : Script) :
    ((∃ b : List Nat, b.length = 32 ∧ s = OP_PUSHNUM_1 :: 32 :: b) →
      ∃ c, CompactScript.tryFromScript s = some c ∧ c.kind = .P2TR ∧
        c.toScript = some s) ∧
    ((∃ b : List Nat, b.length = 20 ∧ s = OP_PUSHBYTES_0 :: 20 :: b) →
      ∃ c, CompactScript.tryFromScript s = some c ∧ c.kind = .P2WPKH ∧
        c.toScript = some s) ∧
    ((∃ b : List Nat, b.length = 32 ∧ s = OP_PUSHBYTES_0 :: 32 :: b) →
      ∃ c, CompactScript.tryFromScript s = some c ∧ c.kind = .P2WSH ∧
        c.toScript = some s) ∧
    (¬ IsCompactForm s → CompactScript.tryFromScript s = none) := by
  refine ⟨?_, ?_, ?_, ?_⟩
  · rintro ⟨b, hb, rfl⟩
    exact ⟨⟨.P2TR, b⟩, tryFromScript_p2tr b hb, rfl, by
      simp [CompactScript.toScript, hb]⟩
  · rintro ⟨b, hb, rfl⟩
    exact ⟨⟨.P2WPKH, b⟩, tryFromScript_p2wpkh b hb, rfl, by
      simp [CompactScript.toScript, hb]⟩
  · rintro ⟨b, hb, rfl⟩
    exact ⟨⟨.P2WSH, b⟩, tryFromScript_p2wsh b hb, rfl, by
      simp [CompactScript.toScript, hb]⟩
  · intro hnot
    cases h : CompactScript.tryFromScript s with
    | none => rfl
    | some c => exact absurd (tryFromScript_some_form s c h) hnot

/-- C4 witness: concrete evaluation of the roundtrip at a P2TR script. -/
theorem compact_script_roundtrip_witness :
    ∃ c, CompactScript.tryFromScript (OP_PUSHNUM_1 :: 32 :: List.replicate 32 7)
        = some c ∧ c.kind = .P2TR ∧
        c.toScript = some (OP_PUSHNUM_1 :: 32 :: List.replicate 32 7) :=
  (compact_script_roundtrip (OP_PUSHNUM_1 :: 32 :: List.replicate 32 7)).1
    ⟨List.replicate 32 7, by simp, rfl⟩

/-- Mirrors `ordinals::AuthorityKind`. -/
inductive AuthorityKind
  | Mint
  | Blacklist
  | Master
deriving DecidableEq, Repr

/-- Mirrors `AuthorityKind::mask` (`1 << 0`, `1 << 1`, `1 << 2`). -/
def AuthorityKind.mask : AuthorityKind → Nat
  | .Mint => 1
  | .Blacklist => 2
  | .Master => 4

/-- Bit index of each kind's mask. -/
def AuthorityKind.bitIndex : AuthorityKind → Nat
  | .Mint => 0
  | .Blacklist => 1
  | .Master => 2

/-- Mirrors `ordinals::AuthorityBits` (a `u8` of which only the low 3 bits are
significant). -/
structure AuthorityBits where
  raw : Nat
deriving DecidableEq, Repr

/-- Mirrors `AuthorityBits::empty`. -/
def AuthorityBits.empty : AuthorityBits := ⟨0⟩

/-- Mirrors `AuthorityBits::bits` (`self.0 & 0b111`). -/
def AuthorityBits.bits (b : AuthorityBits) : Nat := b.raw &&& 7

/-- Mirrors `AuthorityBits::contains`. -/
def AuthorityBits.contains (b : AuthorityBits) (k : AuthorityKind) : Bool :=
  b.bits &&& k.mask != 0

/-- Mirrors `AuthorityBits::insert` (returning the updated value). -/
def AuthorityBits.insert (b : AuthorityBits) (k : AuthorityKind) : AuthorityBits :=
  ⟨b.raw ||| k.mask⟩

/-- Mirrors `AuthorityBits::extend`. -/
def AuthorityBits.extend (b : AuthorityBits) (k : AuthorityKind) : AuthorityBits :=
  b.insert k

/-- Mirrors `AuthorityBits::is_empty`. -/
def AuthorityBits.isEmpty (b : AuthorityBits) : Bool := b.bits == 0

/-- Mirrors `AuthorityBits::from` / `from_bits_truncated` (`bits & 0b111`). -/
def AuthorityBits.fromByte (x : Nat) : AuthorityBits := ⟨x &&& 7⟩

/-- The fixed kind order Mint → Blacklist → Master used throughout the source. -/
def authorityKindOrder : List AuthorityKind := [.Mint, .Blacklist, .Master]

/-- Mirrors `AuthorityBits::kinds` (the contained kinds, in fixed order). -/
def AuthorityBits.kinds (b : AuthorityBits) : List AuthorityKind :=
  authorityKindOrder.filter b.contains

lemma AuthorityKind.mask_eq_two_pow (k : AuthorityKind) : k.mask = 2 ^ k.bitIndex := by
  cases k <;> rfl

lemma AuthorityBits.contains_eq_testBit (b : AuthorityBits) (k : AuthorityKind) :
    b.contains k = b.raw.testBit k.bitIndex := by
  have hlt : k.bitIndex < 3 := by cases k <;> simp [AuthorityKind.bitIndex]
  have h7 : (7 : Nat) = 2 ^ 3 - 1 := by norm_num
  rw [AuthorityBits.contains, AuthorityBits.bits, AuthorityKind.mask_eq_two_pow,
    Nat.and_two_pow]
  rcases h : (b.raw &&& 7).testBit k.bitIndex with hf | ht
  · have : (b.raw &&& 7).testBit k.bitIndex = b.raw.testBit k.bitIndex := by
      rw [Nat.testBit_and]
      have : (7 : Nat).testBit k.bitIndex = true := by
        interval_cases i : k.bitIndex <;> decide
      rw [this, Bool.and_true]
    rw [← this, h]
    simp [h]
  · have : (b.raw &&& 7).testBit k.bitIndex = b.raw.testBit k.bitIndex := by
      rw [Nat.testBit_and]
      have : (7 : Nat).testBit k.bitIndex = true := by
        interval_cases i : k.bitIndex <;> decide
      rw [this, Bool.and_true]
    rw [← this, h]
    have hpos : 0 < 2 ^ k.bitIndex := Nat.pos_pow_of_pos k.bitIndex (by norm_num)
    simp [h]

lemma AuthorityBits.contains_insert (b : AuthorityBits) (k k' : AuthorityKind) :
    (b.insert k).contains k' = (b.contains k' || decide (k' = k)) := by
  rw [AuthorityBits.contains_eq_testBit, AuthorityBits.contains_eq_testBit,
    AuthorityBits.insert]
  cases k <;> cases k' <;>
    (simp only [AuthorityKind.mask, AuthorityKind.bitIndex, Nat.testBit_or]
     congr 1)

lemma AuthorityBits.contains_congr_bits (b b' : AuthorityBits) (h : b.bits = b'.bits)
    (k : AuthorityKind) : b.contains k = b'.contains k := by
  rw [AuthorityBits.contains, AuthorityBits.contains, h]

lemma AuthorityBits.bits_fromByte (x : Nat) : (AuthorityBits.fromByte x).bits = x &&& 7 := by
  rw [AuthorityBits.fromByte, AuthorityBits.bits, Nat.land_assoc,
    show (7 &&& 7 : Nat) = 7 from by decide]

lemma AuthorityBits.bits_fromByte_bits (b : AuthorityBits) :
    (AuthorityBits.fromByte b.bits).bits = b.bits := by
  rw [AuthorityBits.bits_fromByte, AuthorityBits.bits, Nat.land_assoc,
    show (7 &&& 7 : Nat) = 7 from by decide]

/-- Folding `insert` over the kinds of `a`, mirroring the source's
`for kind in authorities.kinds() { x.insert(kind) }` loops. -/
def AuthorityBits.insertKinds (b a : AuthorityBits) : AuthorityBits :=
  a.kinds.foldl AuthorityBits.insert b

lemma AuthorityBits.contains_insertKinds (b a : AuthorityBits) (k : AuthorityKind) :
    (b.insertKinds a).contains k = (b.contains k || a.contains k) := by
  rw [AuthorityBits.insertKinds, AuthorityBits.kinds, authorityKindOrder]
  rcases hm : a.contains .Mint <;> rcases hb : a.contains .Blacklist <;>
    rcases hs : a.contains .Master <;>
    simp [List.filter, hm, hb, hs, AuthorityBits.contains_insert] <;>
    cases k <;> simp [hm, hb, hs]

/-- An outpoint `(txid, vout)`; txids are abstracted to naturals. -/
structure OutPoint where
  txid : Nat
  vout : Nat
deriving DecidableEq, Repr

/-- Identifies a rune by the `(height, tx-index)` of its etching. -/
structure RuneId where
  block : Nat
  tx : Nat
deriving DecidableEq, Repr

/-- Mirrors `RuneId::default()` (the `0:0` sentinel used by edicts). -/
def RuneId.zero : RuneId := ⟨0, 0⟩

/-- Mirrors `CachedScript`: a compact script together with its (possibly failed)
reconstruction, computed once at construction time. -/
structure CachedScript where
  compact : CompactScript
  script : Option Script
deriving DecidableEq, Repr

/-- Mirrors `CachedScript::new`. -/
def CachedScript.mkNew (c : CompactScript) : CachedScript := ⟨c, c.toScript⟩

/-- Mirrors `AuthorityScripts` (one optional cached script per kind). -/
structure AuthorityScripts where
  mint : Option CachedScript
  blacklist : Option CachedScript
  master : Option CachedScript
deriving DecidableEq, Repr

/-- Mirrors `AuthorityScripts::default()`. -/
def AuthorityScripts.empty : AuthorityScripts := ⟨none, none, none⟩

/-- Mirrors `AuthorityScripts::get`. -/
def AuthorityScripts.get (s : AuthorityScripts) : AuthorityKind → Option CachedScript
  | .Mint => s.mint
  | .Blacklist => s.blacklist
  | .Master => s.master

/-- Slot update helper used when decoding the scripts blob. -/
def AuthorityScripts.setKind (s : AuthorityScripts) (k : AuthorityKind)
    (c : CachedScript) : AuthorityScripts :=
  match k with
  | .Mint => { s with mint := some c }
  | .Blacklist => { s with blacklist := some c }
  | .Master => { s with master := some c }

/-- The platform hash function used by `ScriptBloom` (`DefaultHasher` seeded with
a `u64`); it is external to the repository, so the development is parameterized
over it. -/
abbrev HashFn := Script → Nat → Nat

/-- Smallest power of two that is at least `n` (Rust `usize::next_power_of_two`;
`0` maps to `1`).  Implemented with explicit fuel so it evaluates by `rfl`. -/
def nextPow2Aux (n : Nat) : Nat → Nat → Nat
  | 0, acc => acc
  | fuel + 1, acc => if n ≤ acc then acc else nextPow2Aux n fuel (2 * acc)

def nextPow2 (n : Nat) : Nat := nextPow2Aux n n 1

/-- Mirrors `ScriptBloom` (bit vector of 64-bit words plus the index mask). -/
structure ScriptBloom where
  bits : List Nat
  mask : Nat
deriving DecidableEq, Repr

/-- Mirrors `ScriptBloom::new`: 8 bits per entry rounded up to a power of two,
clamped to `[64, 2^20]`; `words = ceil(bit_count/64)`, `mask = bit_count - 1`. -/
def ScriptBloom.new (entries : Nat) : Option ScriptBloom :=
  if entries = 0 then none
  else
    let bitCount := max 64 (min (nextPow2 entries * 8) (2 ^ 20))
    let words := (bitCount + 64 - 1) / 64
    some ⟨List.replicate words 0, bitCount - 1⟩

/-- The seed `0x9e3779b97f4a7c15` of the second bloom hash. -/
def BLOOM_SEED_B : Nat := 11400714819323198485

/-- Mirrors `ScriptBloom::indices`. -/
def ScriptBloom.indices (h : HashFn) (bl : ScriptBloom) (data : Script) : Nat × Nat :=
  (h data 0 &&& bl.mask, h data BLOOM_SEED_B &&& bl.mask)

/-- Mirrors `ScriptBloom::set_bit` (out-of-range indices are a no-op). -/
def setBitList (l : List Nat) (idx : Nat) : List Nat :=
  l.set (idx / 64) (l.getD (idx / 64) 0 ||| 1 <<< (idx % 64))

/-- Mirrors `ScriptBloom::test_bit` (out-of-range indices read as false). -/
def testBitList (l : List Nat) (idx : Nat) : Bool :=
  l.getD (idx / 64) 0 &&& 1 <<< (idx % 64) != 0

/-- Mirrors `ScriptBloom::insert`. -/
def ScriptBloom.insert (h : HashFn) (bl : ScriptBloom) (data : Script) : ScriptBloom :=
  let p := bl.indices h data
  { bl with bits := setBitList (setBitList bl.bits p.1) p.2 }

/-- Mirrors `ScriptBloom::might_contain`. -/
def ScriptBloom.mightContain (h : HashFn) (bl : ScriptBloom) (data : Script) : Bool :=
  let p := bl.indices h data
  testBitList bl.bits p.1 && testBitList bl.bits p.2

/-- Mirrors `AuthorityContext`. -/
structure AuthorityContext where
  flags : AuthorityBits
  scripts : AuthorityScripts
  minters : List CachedScript
  blacklist : List CachedScript
  blacklistBloom : Option ScriptBloom
  supplyExtra : Nat

/-- Mirrors `Authority::is_blacklisted`: bloom short-circuit (when a filter is
present) followed by a linear scan for a reconstructed-script match. -/
def Authority.isBlacklisted (h : HashFn) (ctx : AuthorityContext) (s : Script) : Bool :=
  match ctx.blacklistBloom with
  | some bloom =>
    if ¬ bloom.mightContain h s then false
    else ctx.blacklist.any (fun e => e.script == some s)
  | none => ctx.blacklist.any (fun e => e.script == some s)

/-- Mirrors `AUTHORITY_INPUT_LIMIT`. -/
def AUTHORITY_INPUT_LIMIT : Nat := 10

/-- Mirrors the loop body of `Authority::first_matching_input` over a list of
prevouts (the caller applies the first-10 truncation): prevouts whose script
cannot be fetched are skipped, blacklisted prevouts are skipped, and the first
predicate match returns its index. -/
def firstMatchingInput (fetch : OutPoint → Option Script) (h : HashFn)
    (ctx : AuthorityContext) (pred : Script → Bool) : List OutPoint → Option Nat
  | [] => none
  | op :: rest =>
    match fetch op with
    | some sc =>
      if Authority.isBlacklisted h ctx sc then
        (firstMatchingInput fetch h ctx pred rest).map (· + 1)
      else if pred sc then some 0
      else (firstMatchingInput fetch h ctx pred rest).map (· + 1)
    | none => (firstMatchingInput fetch h ctx pred rest).map (· + 1)

/-- Mirrors `Authority::check_authority`. -/
def Authority.checkAuthority (fetch : OutPoint → Option Script) (h : HashFn)
    (ctx : AuthorityContext) (inputs : List OutPoint) (kind : AuthorityKind) : Bool :=
  match ctx.scripts.get kind with
  | none => false
  | some cs =>
    match cs.script with
    | none => false
    | some expected =>
      (firstMatchingInput fetch h ctx (fun c => c == expected)
        (inputs.take AUTHORITY_INPUT_LIMIT)).isSome

/-- Mirrors `Authority::check_is_minter`. -/
def Authority.checkIsMinter (fetch : OutPoint → Option Script) (h : HashFn)
    (ctx : AuthorityContext) (inputs : List OutPoint) : Bool :=
  if Authority.checkAuthority fetch h ctx inputs .Master then true
  else if ctx.minters.isEmpty then false
  else
    let minterScripts := ctx.minters.filterMap CachedScript.script
    (firstMatchingInput fetch h ctx
      (fun c => minterScripts.any (fun s => c == s))
      (inputs.take AUTHORITY_INPUT_LIMIT)).isSome

/-- Inverse of `CompactScriptKind::toByte`, mirroring the kind-byte matches in
the decoders (`0 => P2TR, 1 => P2WPKH, 2 => P2WSH, _ => invalid`). -/
def CompactScriptKind.ofByte : Nat → Option CompactScriptKind
  | 0 => some .P2TR
  | 1 => some .P2WPKH
  | 2 => some .P2WSH
  | _ => none

/-- Mirrors `Authority::decode_compact_entry` (format `[kind, body...]`): the
body must have length `1..=32`, the kind byte must be `0..=2`, and the compact
script must reconstruct. -/
def decodeCompactEntry : List Nat → Option CompactScript
  | [] => none
  | kindByte :: body =>
    if body.length = 0 ∨ body.length > 32 then none
    else
      match CompactScriptKind.ofByte kindByte with
      | none => none
      | some ck =>
        match CompactScript.toScript ⟨ck, body⟩ with
        | none => none
        | some _ => some ⟨ck, body⟩

/-- Mirrors `Authority::decode_entry_to_script`. -/
def decodeEntryToScript (e : List Nat) : Option Script :=
  (decodeCompactEntry e).bind CompactScript.toScript

/-- Mirrors the slot walk of `Authority::decode_authority_scripts`: for each
kind in order that `presence` marks set, read `[kind_byte, body_len, body...]`
at `offset`; stop on a short blob or a bad body length; skip (but advance past)
slots with an unknown kind byte. -/
def decodeScriptsGo (blob : List Nat) (presence : AuthorityBits) :
    List AuthorityKind → Nat → AuthorityScripts → AuthorityScripts
  | [], _, scripts => scripts
  | k :: rest, offset, scripts =>
    if presence.contains k then
      if blob.length < offset + 2 then scripts
      else
        let kindByte := blob.getD offset 0
        let bodyLen := blob.getD (offset + 1) 0
        if bodyLen = 0 ∨ bodyLen > 32 ∨ blob.length < offset + 2 + bodyLen then scripts
        else
          match CompactScriptKind.ofByte kindByte with
          | none => decodeScriptsGo blob presence rest (offset + 2 + bodyLen) scripts
          | some ck =>
            let cached := CachedScript.mkNew ⟨ck, (blob.drop (offset + 2)).take bodyLen⟩
            decodeScriptsGo blob presence rest (offset + 2 + bodyLen)
              (scripts.setKind k cached)
    else decodeScriptsGo blob presence rest offset scripts

/-- Mirrors `Authority::decode_authority_scripts` on the raw blob bytes. -/
def decodeAuthorityScriptsBlob (blob : List Nat) : AuthorityScripts × AuthorityBits :=
  if blob.isEmpty then (AuthorityScripts.empty, AuthorityBits.empty)
  else
    let presence := AuthorityBits.fromByte (blob.headD 0)
    (decodeScriptsGo blob presence authorityKindOrder 1 AuthorityScripts.empty, presence)

/-- Mirrors `Authority::decode_authority_scripts` including the absent-row case. -/
def decodeAuthorityScriptsRow (row : Option (List Nat)) : AuthorityScripts × AuthorityBits :=
  match row with
  | none => (AuthorityScripts.empty, AuthorityBits.empty)
  | some blob => decodeAuthorityScriptsBlob blob

/-- The loop body of the bloom construction in `load_context`: insert the
reconstructed script of an entry, skipping entries without one. -/
def bloomInsertStep (h : HashFn) (acc : ScriptBloom) (e : CachedScript) : ScriptBloom :=
  match e.script with
  | some s => acc.insert h s
  | none => acc

/-- Mirrors `Authority::load_context`: flags row (empty default, replaced by the
blob presence when empty), decoded scripts blob, minter and blacklist multimap
entries filtered through `decode_compact_entry`, the bloom filter built from the
reconstructed blacklist scripts, and the supply_extra row (0 default). -/
def loadContext (h : HashFn) (flagsRow : Option Nat) (scriptsRow : Option (List Nat))
    (minterRows blacklistRows : List (List Nat)) (supplyRow : Option Nat) :
    AuthorityContext :=
  let flags := match flagsRow with
    | some v => AuthorityBits.fromByte v
    | none => AuthorityBits.empty
  let sp := decodeAuthorityScriptsRow scriptsRow
  let flags := if flags.isEmpty then sp.2 else flags
  let minters := minterRows.filterMap
    (fun e => (decodeCompactEntry e).map CachedScript.mkNew)
  let blacklist := blacklistRows.filterMap
    (fun e => (decodeCompactEntry e).map CachedScript.mkNew)
  let bloom := (ScriptBloom.new blacklist.length).map (fun b0 =>
    blacklist.foldl (bloomInsertStep h) b0)
  ⟨flags, sp.1, minters, blacklist, bloom, supplyRow.getD 0⟩

lemma firstMatchingInput_isSome_eq_any (fetch : OutPoint → Option Script) (h : HashFn)
    (ctx : AuthorityContext) (pred : Script → Bool) (l : List OutPoint) :
    (firstMatchingInput fetch h ctx pred l).isSome =
      l.any (fun op =>
        match fetch op with
        | some sc => !(Authority.isBlacklisted h ctx sc) && pred sc
        | none => false) := by
  induction l with
  | nil => simp [firstMatchingInput]
  | cons op rest ih =>
    rw [List.any_cons]
    cases hf : fetch op with
    | none => simp [firstMatchingInput, hf, ih]
    | some sc =>
      by_cases hb : Authority.isBlacklisted h ctx sc
      · simp [firstMatchingInput, hf, hb, ih]
      · by_cases hp : pred sc = true
        · simp [firstMatchingInput, hf, hb, hp]
        · simp [firstMatchingInput, hf, hb, hp, ih]

lemma mem_take_iff_getElem (l : List OutPoint) (n : Nat) (op : OutPoint) :
    op ∈ l.take n ↔ ∃ i, i < n ∧ l[i]? = some op := by
  constructor
  · intro hx
    obtain ⟨i, hi, hval⟩ := List.mem_iff_getElem.mp hx
    have hlt : i < n := lt_of_lt_of_le hi (by simpa using List.length_take_le n l)
    refine ⟨i, hlt, ?_⟩
    rw [← List.getElem?_take_of_lt hlt, List.getElem?_eq_getElem hi, hval]
  · rintro ⟨i, hlt, hi⟩
    have h2 : (l.take n)[i]? = some op := by rw [List.getElem?_take_of_lt hlt]; exact hi
    exact List.getElem?_mem h2

/-- C3.  `check_authority` returns true iff the stored authority script for the
kind exists and reconstructs, and some input among the first
`AUTHORITY_INPUT_LIMIT` (= 10) inputs has a fetchable prevout scriptPubKey that
is not blacklisted for the rune and equals the expected script; inputs at index
10 or later can never authorize, and blacklisted prevouts are skipped rather
than matched. -/
theorem check_authority_characterization (fetch : OutPoint → Option Script)
    (h : HashFn) (ctx : AuthorityContext) (inputs : List OutPoint)
    (kind : AuthorityKind) :
    Authority.checkAuthority fetch h ctx inputs kind = true ↔
      ∃ expected, (ctx.scripts.get kind).bind CachedScript.script = some expected ∧
        ∃ i, i < AUTHORITY_INPUT_LIMIT ∧ ∃ op sc, inputs[i]? = some op ∧
          fetch op = some sc ∧ Authority.isBlacklisted h ctx sc = false ∧
          sc = expected := by
  cases hg : ctx.scripts.get kind with
  | none => simp [Authority.checkAuthority, hg]
  | some cs =>
    cases hs : cs.script with
    | none => simp [Authority.checkAuthority, hg, hs]
    | some expected =>
      simp only [Authority.checkAuthority, hg, hs, Option.some_bind, Option.some.injEq]
      rw [firstMatchingInput_isSome_eq_any, List.any_eq_true]
      constructor
      · rintro ⟨op, hmem, hop⟩
        obtain ⟨i, hlt, hgi⟩ := (mem_take_iff_getElem inputs AUTHORITY_INPUT_LIMIT op).mp hmem
        cases hf : fetch op with
        | none => rw [hf] at hop; exact absurd hop (by simp)
        | some sc =>
          rw [hf] at hop
          simp only [Bool.and_eq_true, Bool.not_eq_true'] at hop
          exact ⟨expected, rfl, i, hlt, op, sc, hgi, hf, hop.1, eq_of_beq hop.2⟩
      · rintro ⟨exp2, hexp2, i, hlt, op, sc, hgi, hf, hnb, rfl⟩
        subst hexp2
        refine ⟨op, (mem_take_iff_getElem inputs AUTHORITY_INPUT_LIMIT op).mpr ⟨i, hlt, hgi⟩, ?_⟩
        rw [hf]
        simp [hnb]

/-- Concrete 32-byte body used by witnesses. -/
def bodyA : List Nat := List.replicate 32 1

/-- Concrete P2TR script used by witnesses. -/
def scriptA : Script := OP_PUSHNUM_1 :: 32 :: bodyA

/-- Concrete cached authority script used by witnesses. -/
def csA : CachedScript := CachedScript.mkNew ⟨.P2TR, bodyA⟩

/-- Concrete authority context used by witnesses. -/
def ctxA : AuthorityContext :=
  ⟨AuthorityBits.fromByte 7, ⟨some csA, none, some csA⟩, [], [], none, 0⟩

/-- Concrete prevout-script oracle used by witnesses. -/
def fetchA : OutPoint → Option Script := fun _ => some scriptA

/-- Concrete (degenerate) platform hash used by witnesses. -/
def hashZero : HashFn := fun _ _ => 0

/-- C3 witness: a non-blacklisted first input whose prevout equals the stored
mint-authority script makes `check_authority` return true. -/
theorem check_authority_characterization_witness :
    Authority.checkAuthority fetchA hashZero ctxA [⟨0, 0⟩] .Mint = true :=
  (check_authority_characterization fetchA hashZero ctxA [⟨0, 0⟩] .Mint).mpr
    ⟨scriptA, rfl, 0, by decide, ⟨0, 0⟩, scriptA, rfl, rfl, rfl, rfl⟩

lemma setBitList_length (l : List Nat) (idx : Nat) :
    (setBitList l idx).length = l.length := by
  simp [setBitList]

lemma nat_or_shift_and_ne (x k : Nat) : ((x ||| 1 <<< k) &&& 1 <<< k != 0) = true := by
  have h1 : (1 : Nat) <<< k = 2 ^ k := by rw [Nat.shiftLeft_eq, one_mul]
  have h2 : (0 : Nat) < 2 ^ k := Nat.pos_pow_of_pos k (by norm_num)
  have h3 : (x ||| 2 ^ k).testBit k = true := by
    rw [Nat.testBit_or, Nat.testBit_two_pow_self]; simp
  rw [h1, Nat.and_two_pow, h3]
  simpa using h2.ne'

lemma nat_or_preserves_and_ne (x y k : Nat) (hx : (x &&& 1 <<< k != 0) = true) :
    ((x ||| y) &&& 1 <<< k != 0) = true := by
  have h1 : (1 : Nat) <<< k = 2 ^ k := by rw [Nat.shiftLeft_eq, one_mul]
  rw [h1, Nat.and_two_pow] at hx
  rw [h1, Nat.and_two_pow, Nat.testBit_or]
  have h2 : (0 : Nat) < 2 ^ k := Nat.pos_pow_of_pos k (by norm_num)
  rcases ht : x.testBit k
  · rw [ht] at hx; simp at hx
  · simp [h2.ne']

lemma testBitList_setBitList_self (l : List Nat) (idx : Nat)
    (hr : idx / 64 < l.length) : testBitList (setBitList l idx) idx = true := by
  unfold testBitList setBitList
  have hv : (l.set (idx / 64) (l.getD (idx / 64) 0 ||| 1 <<< (idx % 64)))[idx / 64]? =
      some (l.getD (idx / 64) 0 ||| 1 <<< (idx % 64)) := by
    simp [List.getElem?_set_self', List.getElem?_eq_getElem, hr]
  rw [List.getD_eq_getElem?_getD, hv, Option.getD_some]
  exact nat_or_shift_and_ne _ _

lemma testBitList_setBitList_mono (l : List Nat) (i j : Nat)
    (hj : testBitList l j = true) : testBitList (setBitList l i) j = true := by
  unfold testBitList setBitList at *
  by_cases hw : i / 64 = j / 64
  · by_cases hr : j / 64 < l.length
    · have hv : (l.set (i / 64) (l.getD (i / 64) 0 ||| 1 <<< (i % 64)))[j / 64]? =
          some (l.getD (i / 64) 0 ||| 1 <<< (i % 64)) := by
        rw [hw]
        simp [List.getElem?_set_self', List.getElem?_eq_getElem, hr]
      rw [List.getD_eq_getElem?_getD, hv, Option.getD_some, hw]
      exact nat_or_preserves_and_ne _ _ _ hj
    · have hnone : l[j / 64]? = none := List.getElem?_eq_none (by omega)
      have hnone2 : (l.set (i / 64) (l.getD (i / 64) 0 ||| 1 <<< (i % 64)))[j / 64]? = none := by
        apply List.getElem?_eq_none
        simpa using (by omega : l.length ≤ j / 64)
      rw [List.getD_eq_getElem?_getD, hnone] at hj
      rw [List.getD_eq_getElem?_getD, hnone2]
      exact hj
  · have hne : (l.set (i / 64) (l.getD (i / 64) 0 ||| 1 <<< (i % 64)))[j / 64]? = l[j / 64]? :=
      List.getElem?_set_ne hw
    rw [List.getD_eq_getElem?_getD, hne, ← List.getD_eq_getElem?_getD]
    exact hj

lemma ScriptBloom.insert_mask (h : HashFn) (bl : ScriptBloom) (s : Script) :
    (bl.insert h s).mask = bl.mask := rfl

lemma ScriptBloom.insert_length (h : HashFn) (bl : ScriptBloom) (s : Script) :
    (bl.insert h s).bits.length = bl.bits.length := by
  simp [ScriptBloom.insert, setBitList_length]

lemma ScriptBloom.mightContain_insert_self (h : HashFn) (bl : ScriptBloom) (s : Script)
    (hrange : ∀ idx, idx ≤ bl.mask → idx / 64 < bl.bits.length) :
    (bl.insert h s).mightContain h s = true := by
  unfold ScriptBloom.mightContain ScriptBloom.insert ScriptBloom.indices
  simp only
  have ha : h s 0 &&& bl.mask ≤ bl.mask := Nat.and_le_right
  have hb : h s BLOOM_SEED_B &&& bl.mask ≤ bl.mask := Nat.and_le_right
  simp only [Bool.and_eq_true]
  refine ⟨?_, ?_⟩
  · exact testBitList_setBitList_mono _ _ _
      (testBitList_setBitList_self _ _ (hrange _ ha))
  · exact testBitList_setBitList_self _ _ (by
      rw [setBitList_length]; exact hrange _ hb)

lemma ScriptBloom.mightContain_insert_mono (h : HashFn) (bl : ScriptBloom)
    (s t : Script) (ht : bl.mightContain h t = true) :
    (bl.insert h s).mightContain h t = true := by
  unfold ScriptBloom.mightContain ScriptBloom.insert ScriptBloom.indices at *
  simp only [Bool.and_eq_true] at ht ⊢
  obtain ⟨h1, h2⟩ := ht
  exact ⟨testBitList_setBitList_mono _ _ _ (testBitList_setBitList_mono _ _ _ h1),
    testBitList_setBitList_mono _ _ _ (testBitList_setBitList_mono _ _ _ h2)⟩

lemma bloomInsertStep_mask (h : HashFn) (bl : ScriptBloom) (e : CachedScript) :
    (bloomInsertStep h bl e).mask = bl.mask := by
  unfold bloomInsertStep
  cases e.script <;> rfl

lemma bloomInsertStep_length (h : HashFn) (bl : ScriptBloom) (e : CachedScript) :
    (bloomInsertStep h bl e).bits.length = bl.bits.length := by
  unfold bloomInsertStep
  cases e.script <;> simp [ScriptBloom.insert_length]

lemma bloom_foldl_mono (h : HashFn) (l : List CachedScript) (bl : ScriptBloom)
    (t : Script) (ht : bl.mightContain h t = true) :
    (l.foldl (bloomInsertStep h) bl).mightContain h t = true := by
  induction l generalizing bl with
  | nil => exact ht
  | cons e rest ih =>
    rw [List.foldl_cons]
    refine ih _ ?_
    unfold bloomInsertStep
    cases e.script with
    | none => exact ht
    | some s => exact ScriptBloom.mightContain_insert_mono h bl s t ht

lemma bloom_foldl_contains (h : HashFn) (l : List CachedScript) (bl : ScriptBloom)
    (hrange : ∀ idx, idx ≤ bl.mask → idx / 64 < bl.bits.length)
    (cs : CachedScript) (hin : cs ∈ l) (sb : Script) (hsc : cs.script = some sb) :
    (l.foldl (bloomInsertStep h) bl).mightContain h sb = true := by
  induction l generalizing bl with
  | nil => cases hin
  | cons e rest ih =>
    rw [List.foldl_cons]
    rcases List.mem_cons.mp hin with heq | hmem
    · subst heq
      refine bloom_foldl_mono h rest _ sb ?_
      unfold bloomInsertStep
      rw [hsc]
      exact ScriptBloom.mightContain_insert_self h bl sb hrange
    · refine ih _ ?_ hmem
      intro idx hidx
      rw [bloomInsertStep_length]
      rw [bloomInsertStep_mask] at hidx
      exact hrange idx hidx

lemma bloom_new_range (n : Nat) (bl : ScriptBloom) (hn : ScriptBloom.new n = some bl) :
    ∀ idx, idx ≤ bl.mask → idx / 64 < bl.bits.length := by
  unfold ScriptBloom.new at hn
  by_cases h0 : n = 0
  · rw [if_pos h0] at hn; cases hn
  · rw [if_neg h0] at hn
    simp only [Option.some.injEq] at hn
    subst hn
    intro idx hidx
    simp only [List.length_replicate]
    have hB : 64 ≤ max 64 (min (nextPow2 n * 8) (2 ^ 20)) := le_max_left _ _
    set B := max 64 (min (nextPow2 n * 8) (2 ^ 20)) with hBdef
    have hwords : (B + 64 - 1) / 64 = (B - 1) / 64 + 1 := by
      have : B + 64 - 1 = (B - 1) + 64 := by omega
      rw [this, Nat.add_div_right _ (by norm_num)]
    rw [hwords]
    have hle : idx / 64 ≤ (B - 1) / 64 := Nat.div_le_div_right (by simpa using hidx)
    omega

/-- C9.  Bloom filter no-false-negatives for loaded contexts: every script that
appears (reconstructed) in the loaded blacklist satisfies `might_contain`, and
consequently `is_blacklisted` on a loaded context coincides with the plain
linear scan of the blacklist, with or without the filter. -/
theorem bloom_no_false_negatives (h : HashFn) (flagsRow : Option Nat)
    (scriptsRow : Option (List Nat)) (minterRows blacklistRows : List (List Nat))
    (supplyRow : Option Nat) (s : Script) :
    (∀ cs ∈ (loadContext h flagsRow scriptsRow minterRows blacklistRows
        supplyRow).blacklist, ∀ sb, cs.script = some sb →
      ∀ bloom, (loadContext h flagsRow scriptsRow minterRows blacklistRows
        supplyRow).blacklistBloom = some bloom →
        bloom.mightContain h sb = true) ∧
    Authority.isBlacklisted h
        (loadContext h flagsRow scriptsRow minterRows blacklistRows supplyRow) s =
      (loadContext h flagsRow scriptsRow minterRows blacklistRows
        supplyRow).blacklist.any (fun e => e.script == some s) := by
  set ctx := loadContext h flagsRow scriptsRow minterRows blacklistRows supplyRow
    with hctx
  have hbloomdef : ctx.blacklistBloom =
      (ScriptBloom.new ctx.blacklist.length).map
        (fun b0 => ctx.blacklist.foldl (bloomInsertStep h) b0) := rfl
  have part1 : ∀ cs ∈ ctx.blacklist, ∀ sb, cs.script = some sb →
      ∀ bloom, ctx.blacklistBloom = some bloom → bloom.mightContain h sb = true := by
    intro cs hcs sb hsb bloom hbloom
    rw [hbloomdef] at hbloom
    obtain ⟨b0, hb0, rfl⟩ := Option.map_eq_some'.mp hbloom
    exact bloom_foldl_contains h ctx.blacklist b0 (bloom_new_range _ b0 hb0) cs hcs sb hsb
  refine ⟨part1, ?_⟩
  cases hbl : ctx.blacklistBloom with
  | none => simp [Authority.isBlacklisted, hbl]
  | some bloom =>
    by_cases hm : bloom.mightContain h s = true
    · simp [Authority.isBlacklisted, hbl, hm]
    · have hany : ctx.blacklist.any (fun e => e.script == some s) = false := by
        by_contra hcon
        rw [Bool.not_eq_false, List.any_eq_true] at hcon
        obtain ⟨e, he, hbeq⟩ := hcon
        have hscript : e.script = some s := by simpa using hbeq
        exact hm (part1 e he s hscript bloom hbl)
      simp [Authority.isBlacklisted, hbl, hm, hany]

/-- Concrete blacklist multimap entry used by witnesses. -/
def entryB : List Nat := 0 :: List.replicate 32 2

/-- Concrete reconstructed blacklist script used by witnesses. -/
def scriptB : Script := OP_PUSHNUM_1 :: 32 :: List.replicate 32 2

/-- C9 witness: a context loaded with one blacklist entry has a bloom filter
that reports its reconstructed script as possibly contained, and
`is_blacklisted` equals the plain scan there. -/
theorem bloom_no_false_negatives_witness :
    (∃ bloom, (loadContext hashZero none none [] [entryB] none).blacklistBloom
        = some bloom ∧ bloom.mightContain hashZero scriptB = true) ∧
    Authority.isBlacklisted hashZero
        (loadContext hashZero none none [] [entryB] none) scriptB = true := by
  have hth := bloom_no_false_negatives hashZero none none [] [entryB] none scriptB
  have hmem : CachedScript.mkNew ⟨.P2TR, List.replicate 32 2⟩ ∈
      (loadContext hashZero none none [] [entryB] none).blacklist := by
    rw [show (loadContext hashZero none none [] [entryB] none).blacklist =
      [CachedScript.mkNew ⟨.P2TR, List.replicate 32 2⟩] from rfl]
    exact List.mem_singleton.mpr rfl
  refine ⟨⟨_, rfl, hth.1 _ hmem scriptB rfl _ rfl⟩, ?_⟩
  rw [hth.2]
  rfl

lemma toScript_isSome_of_len (ck : CompactScriptKind) (body : List Nat)
    (h1 : body.length ≠ 0) (h2 : body.length ≤ 32) :
    ∃ s, CompactScript.toScript ⟨ck, body⟩ = some s := by
  have hcond : ¬((⟨ck, body⟩ : CompactScript).body.length = 0 ∨
      (⟨ck, body⟩ : CompactScript).body.length > 32) := by
    show ¬(body.length = 0 ∨ body.length > 32)
    omega
  unfold CompactScript.toScript
  rw [if_neg hcond]
  cases ck <;> exact ⟨_, rfl⟩

lemma ofByte_eq_none_iff (kb : Nat) :
    CompactScriptKind.ofByte kb = none ↔ ¬(kb = 0 ∨ kb = 1 ∨ kb = 2) := by
  match kb with
  | 0 => simp [CompactScriptKind.ofByte]
  | 1 => simp [CompactScriptKind.ofByte]
  | 2 => simp [CompactScriptKind.ofByte]
  | n + 3 => simp [CompactScriptKind.ofByte]

/-- The minter entries actually inserted by the master-gated `add_minter` path
of `process_authority_updates` once authorized: `apply_entries` skips only
empty entries, and the insert op accepts every other entry verbatim. -/
def addMinterInsertedEntries (entries : List (List Nat)) : List (List Nat) :=
  entries.filter (fun e => !e.isEmpty)

/-- C6 (amended).  Read side: `decode_compact_entry` accepts exactly the
entries with kind byte in {0,1,2} and body length in 1..=32 (not only 20/32).
Write side: the `add_minter` path inserts every non-empty entry verbatim,
without shape validation. -/
theorem minter_blacklist_entry_validity (e : List Nat) (entries : List (List Nat)) :
    ((decodeCompactEntry e).isSome ↔
      2 ≤ e.length ∧ e.length ≤ 33 ∧
        (e.headD 0 = 0 ∨ e.headD 0 = 1 ∨ e.headD 0 = 2)) ∧
    (∀ x, x ∈ addMinterInsertedEntries entries ↔ x ∈ entries ∧ x ≠ []) := by
  constructor
  · match e with
    | [] => simp [decodeCompactEntry]
    | kb :: body =>
      by_cases hlen : body.length = 0 ∨ body.length > 32
      · have hval : decodeCompactEntry (kb :: body) = none := by
          simp only [decodeCompactEntry]
          rw [if_pos hlen]
        rw [hval]
        simp only [Option.isSome_none, List.length_cons, List.headD_cons]
        constructor
        · intro hfalse; exact absurd hfalse (by simp)
        · intro hrhs; omega
      · push_neg at hlen
        have hcond : ¬(body.length = 0 ∨ body.length > 32) := by omega
        cases hkb : CompactScriptKind.ofByte kb with
        | none =>
          have hval : decodeCompactEntry (kb :: body) = none := by
            simp [decodeCompactEntry, hkb]
          rw [hval]
          simp only [Option.isSome_none, List.length_cons, List.headD_cons]
          constructor
          · intro hfalse; exact absurd hfalse (by simp)
          · intro hrhs
            rw [ofByte_eq_none_iff] at hkb
            exact absurd hrhs.2.2 hkb
        | some ck =>
          obtain ⟨s, hsome⟩ := toScript_isSome_of_len ck body hlen.1 hlen.2
          have hval : decodeCompactEntry (kb :: body) = some ⟨ck, body⟩ := by
            simp [decodeCompactEntry, hkb, hsome, hcond]
            exact ⟨fun hnil => hlen.1 (by simp [hnil]), hlen.2⟩
          rw [hval]
          simp only [Option.isSome_some, List.length_cons, List.headD_cons]
          constructor
          · intro _
            refine ⟨by omega, by omega, ?_⟩
            by_contra hno
            rw [← ofByte_eq_none_iff] at hno
            rw [hno] at hkb
            cases hkb
          · intro _; trivial
  · intro x
    simp only [addMinterInsertedEntries, List.mem_filter, Bool.not_eq_true']
    constructor
    · rintro ⟨hmem, hne⟩
      exact ⟨hmem, by simpa using hne⟩
    · rintro ⟨hmem, hne⟩
      exact ⟨hmem, by simpa using hne⟩

/-- C6 counterexample: an entry with kind byte 0 and a 5-byte body (length
outside {20,32}) is accepted by `decode_compact_entry`, and the `add_minter`
write path inserts an entry with kind byte 9 verbatim. -/
theorem minter_blacklist_entry_validity_counterexample :
    (decodeCompactEntry (0 :: List.replicate 5 170)).isSome = true ∧
    (List.replicate 5 170 : List Nat).length ≠ 20 ∧
    (List.replicate 5 170 : List Nat).length ≠ 32 ∧
    addMinterInsertedEntries [[9, 9, 9]] = [[9, 9, 9]] := by decide

/-- C6 witness: the amended acceptance condition evaluated at the same entry. -/
theorem minter_blacklist_entry_validity_witness :
    (decodeCompactEntry (0 :: List.replicate 5 170)).isSome = true :=
  (minter_blacklist_entry_validity (0 :: List.replicate 5 170) []).1.mpr
    (by decide)

/-- Mirrors the authorized `blacklist` loop of `process_authority_updates`
(`seen` is the running duplicate set; returns the list of inserted entries, in
order): skip empty entries, entries already seen in this batch, entries whose
format does not decode, and entries whose reconstructed script is already
blacklisted. -/
def blacklistAddsGo (h : HashFn) (ctx : AuthorityContext) :
    List (List Nat) → List (List Nat) → List (List Nat)
  | [], _ => []
  | e :: rest, seen =>
    if e.isEmpty then blacklistAddsGo h ctx rest seen
    else if seen.contains e then blacklistAddsGo h ctx rest seen
    else
      match decodeEntryToScript e with
      | none => blacklistAddsGo h ctx rest seen
      | some script =>
        if Authority.isBlacklisted h ctx script then blacklistAddsGo h ctx rest seen
        else e :: blacklistAddsGo h ctx rest (e :: seen)

/-- The entries inserted into the blacklist multimap by an authorized
blacklist update. -/
def processBlacklistAdds (h : HashFn) (ctx : AuthorityContext)
    (entries : List (List Nat)) : List (List Nat) :=
  blacklistAddsGo h ctx entries []

lemma blacklistAddsGo_sound (h : HashFn) (ctx : AuthorityContext)
    (entries : List (List Nat)) : ∀ seen : List (List Nat),
    (blacklistAddsGo h ctx entries seen).Nodup ∧
    ∀ e ∈ blacklistAddsGo h ctx entries seen, e ∉ seen ∧ e ≠ [] ∧
      ∃ s, decodeEntryToScript e = some s ∧
        Authority.isBlacklisted h ctx s = false := by
  induction entries with
  | nil => intro seen; simp [blacklistAddsGo]
  | cons e rest ih =>
    intro seen
    by_cases hemp : e.isEmpty
    · have hstep : blacklistAddsGo h ctx (e :: rest) seen =
          blacklistAddsGo h ctx rest seen := by
        simp [blacklistAddsGo, hemp]
      rw [hstep]; exact ih seen
    · by_cases hseen : e ∈ seen
      · have hstep : blacklistAddsGo h ctx (e :: rest) seen =
            blacklistAddsGo h ctx rest seen := by
          simp [blacklistAddsGo, hemp, hseen]
        rw [hstep]; exact ih seen
      · cases hdec : decodeEntryToScript e with
        | none =>
          have hstep : blacklistAddsGo h ctx (e :: rest) seen =
              blacklistAddsGo h ctx rest seen := by
            simp [blacklistAddsGo, hemp, hseen, hdec]
          rw [hstep]; exact ih seen
        | some script =>
          by_cases hblk : Authority.isBlacklisted h ctx script
          · have hstep : blacklistAddsGo h ctx (e :: rest) seen =
                blacklistAddsGo h ctx rest seen := by
              simp [blacklistAddsGo, hemp, hseen, hdec, hblk]
            rw [hstep]; exact ih seen
          · have hstep : blacklistAddsGo h ctx (e :: rest) seen =
                e :: blacklistAddsGo h ctx rest (e :: seen) := by
              simp [blacklistAddsGo, hemp, hseen, hdec, hblk]
            rw [hstep]
            obtain ⟨ihnd, ihmem⟩ := ih (e :: seen)
            constructor
            · refine List.nodup_cons.mpr ⟨?_, ihnd⟩
              intro hmem
              exact (ihmem e hmem).1 (List.mem_cons_self e seen)
            · intro x hx
              rcases List.mem_cons.mp hx with rfl | hx2
              · exact ⟨hseen, by simpa using hemp, script, hdec, by simpa using hblk⟩
              · obtain ⟨hnotin, hrest⟩ := ihmem x hx2
                exact ⟨fun hc => hnotin (List.mem_cons_of_mem e hc), hrest⟩

lemma blacklistAddsGo_noop (h : HashFn) (ctx : AuthorityContext)
    (entries : List (List Nat))
    (hall : ∀ e ∈ entries, ∀ s, decodeEntryToScript e = some s →
      Authority.isBlacklisted h ctx s = true) :
    ∀ seen : List (List Nat), blacklistAddsGo h ctx entries seen = [] := by
  induction entries with
  | nil => intro seen; rfl
  | cons e rest ih =>
    intro seen
    have hall' : ∀ x ∈ rest, ∀ s, decodeEntryToScript x = some s →
        Authority.isBlacklisted h ctx s = true :=
      fun x hx => hall x (List.mem_cons_of_mem e hx)
    by_cases hemp : e.isEmpty
    · have hstep : blacklistAddsGo h ctx (e :: rest) seen =
          blacklistAddsGo h ctx rest seen := by
        simp [blacklistAddsGo, hemp]
      rw [hstep]; exact ih hall' seen
    · by_cases hseen : e ∈ seen
      · have hstep : blacklistAddsGo h ctx (e :: rest) seen =
            blacklistAddsGo h ctx rest seen := by
          simp [blacklistAddsGo, hemp, hseen]
        rw [hstep]; exact ih hall' seen
      · cases hdec : decodeEntryToScript e with
        | none =>
          have hstep : blacklistAddsGo h ctx (e :: rest) seen =
              blacklistAddsGo h ctx rest seen := by
            simp [blacklistAddsGo, hemp, hseen, hdec]
          rw [hstep]; exact ih hall' seen
        | some script =>
          have hstep : blacklistAddsGo h ctx (e :: rest) seen =
              blacklistAddsGo h ctx rest seen := by
            simp [blacklistAddsGo, hemp, hseen, hdec,
              hall e (List.mem_cons_self e rest) script hdec]
          rw [hstep]; exact ih hall' seen

/-- C8 (amended).  An authorized blacklist update never inserts the same byte
entry twice, never inserts empty or undecodable entries, never inserts an entry
whose reconstructed script is already blacklisted in the loaded context (so
re-blacklisting already-blacklisted scripts is a no-op); however byte-distinct
entries of the same batch may still reconstruct to the same script (see the
counterexample). -/
theorem blacklist_update_idempotence (h : HashFn) (ctx : AuthorityContext)
    (entries : List (List Nat)) :
    (processBlacklistAdds h ctx entries).Nodup ∧
    (∀ e ∈ processBlacklistAdds h ctx entries, e ≠ [] ∧
      ∃ s, decodeEntryToScript e = some s ∧
        Authority.isBlacklisted h ctx s = false) ∧
    ((∀ e ∈ entries, ∀ s, decodeEntryToScript e = some s →
        Authority.isBlacklisted h ctx s = true) →
      processBlacklistAdds h ctx entries = []) := by
  obtain ⟨hnd, hmem⟩ := blacklistAddsGo_sound h ctx entries []
  exact ⟨hnd, fun e he => (hmem e he).2,
    fun hall => blacklistAddsGo_noop h ctx entries hall []⟩

/-- Concrete P2WPKH-kind blacklist entry used by the C8 counterexample. -/
def entryW1 : List Nat := 1 :: List.replicate 20 3

/-- Concrete P2WSH-kind blacklist entry with the same body. -/
def entryW2 : List Nat := 2 :: List.replicate 20 3

/-- An empty authority context (no blacklist, no bloom). -/
def ctxEmpty : AuthorityContext :=
  ⟨AuthorityBits.empty, AuthorityScripts.empty, [], [], none, 0⟩

/-- C8 counterexample: two byte-distinct entries (P2WPKH vs P2WSH kind, same
20-byte body) reconstruct to the same script, and an authorized update inserts
both, so the multimap gains two entries for one script. -/
theorem blacklist_update_idempotence_counterexample :
    processBlacklistAdds hashZero ctxEmpty [entryW1, entryW2] = [entryW1, entryW2] ∧
    decodeEntryToScript entryW1 = decodeEntryToScript entryW2 ∧
    entryW1 ≠ entryW2 ∧ (decodeEntryToScript entryW1).isSome = true := by decide

/-- An authority context whose blacklist already holds the script of `entryW1`. -/
def ctxW : AuthorityContext :=
  ⟨AuthorityBits.empty, AuthorityScripts.empty, [],
    [CachedScript.mkNew ⟨.P2WPKH, List.replicate 20 3⟩], none, 0⟩

/-- C8 witness: re-blacklisting an already-blacklisted script inserts nothing. -/
theorem blacklist_update_idempotence_witness :
    processBlacklistAdds hashZero ctxW [entryW1] = [] := by
  refine (blacklist_update_idempotence hashZero ctxW [entryW1]).2.2 ?_
  intro e he s hs
  rw [List.mem_singleton] at he
  subst he
  have hdec : decodeEntryToScript entryW1 =
      some (OP_PUSHBYTES_0 :: 20 :: List.replicate 20 3) := by decide
  rw [hdec] at hs
  injection hs with hs2
  subst hs2
  decide

/-- Mirrors `Authority::set_supply_extra`'s effect on the supply_extra row:
zero is a no-op, otherwise the row is written. -/
def setSupplyExtraRow (value : Nat) (row : Option Nat) : Option Nat :=
  if value = 0 then row else some value

/-- Mirrors the authority-mint step of `Executor::process_edicts` for one edict:
the `has_mint_flag` check, the two authorization checks, and on success the
mint-beyond-balance update (`delta = amount - balance`, `balance += delta`,
`supply_extra += delta`, persisted immediately).  Returns the new balance, the
new cached supply_extra, and the new supply_extra row. -/
def edictMintPhase (fetch : OutPoint → Option Script) (h : HashFn)
    (ctx : AuthorityContext) (inputs : List OutPoint)
    (amount balance extra : Nat) (row : Option Nat) : Nat × Nat × Option Nat :=
  let hasMintFlag := ctx.flags.contains .Mint
  let allow :=
    if hasMintFlag then
      Authority.checkAuthority fetch h ctx inputs .Mint ||
        Authority.checkIsMinter fetch h ctx inputs
    else false
  if allow ∧ amount > balance then
    let delta := amount - balance
    let newExtra := extra + delta
    (balance + delta, newExtra, setSupplyExtraRow newExtra row)
  else (balance, extra, row)

/-- C2.  Authority mint beyond balance: with the Mint flag, `amount > balance`,
and one of the two checks passing, the balance is raised exactly to `amount`
and supply_extra grows by the shortfall and is persisted immediately; in every
other case the balance, the cached supply_extra, and the row are unchanged. -/
theorem authority_mint_beyond_balance (fetch : OutPoint → Option Script)
    (h : HashFn) (ctx : AuthorityContext) (inputs : List OutPoint)
    (amount balance extra : Nat) (row : Option Nat) :
    (ctx.flags.contains .Mint = true → amount > balance →
      (Authority.checkAuthority fetch h ctx inputs .Mint = true ∨
        Authority.checkIsMinter fetch h ctx inputs = true) →
      edictMintPhase fetch h ctx inputs amount balance extra row =
        (amount, extra + (amount - balance), some (extra + (amount - balance)))) ∧
    (ctx.flags.contains .Mint = false ∨ amount ≤ balance ∨
      (Authority.checkAuthority fetch h ctx inputs .Mint = false ∧
        Authority.checkIsMinter fetch h ctx inputs = false) →
      edictMintPhase fetch h ctx inputs amount balance extra row =
        (balance, extra, row)) := by
  constructor
  · intro hflag hgt hchecks
    have hallow : (Authority.checkAuthority fetch h ctx inputs .Mint ||
        Authority.checkIsMinter fetch h ctx inputs) = true := by
      rcases hchecks with hc | hc <;> simp [hc]
    have hne : extra + (amount - balance) ≠ 0 := by omega
    simp only [edictMintPhase, hflag, if_true, hallow]
    rw [if_pos ⟨trivial, hgt⟩]
    simp only [setSupplyExtraRow, if_neg hne]
    refine Prod.ext ?_ (Prod.ext rfl rfl)
    simp
    omega
  · intro hother
    rcases hother with hflag | hle | ⟨hc1, hc2⟩
    · simp [edictMintPhase, hflag]
    · have : ¬ ((if ctx.flags.contains .Mint then
          Authority.checkAuthority fetch h ctx inputs .Mint ||
            Authority.checkIsMinter fetch h ctx inputs
        else false) = true ∧ amount > balance) := by
        intro hcon; omega
      simp only [edictMintPhase]
      rw [if_neg this]
    · have : (if ctx.flags.contains .Mint then
          Authority.checkAuthority fetch h ctx inputs .Mint ||
            Authority.checkIsMinter fetch h ctx inputs
        else false) = false := by
        cases hf : ctx.flags.contains .Mint <;> simp [hc1, hc2]
      simp only [edictMintPhase, this]
      simp

/-- C2 witness: a concrete authorized mint beyond balance. -/
theorem authority_mint_beyond_balance_witness :
    edictMintPhase fetchA hashZero ctxA [⟨0, 0⟩] 1000 0 0 none =
      (1000, 1000, some 1000) := by
  have h2 := (authority_mint_beyond_balance fetchA hashZero ctxA [⟨0, 0⟩]
    1000 0 0 none).1 (by decide) (by decide) (Or.inl (by decide))
  simpa using h2

/-- Mirrors the `append_script` closure of `Executor::merge_authority_scripts`.
State is (blob built so far, read offset into the existing blob). -/
def appendScript (authorities existingPresence presence : AuthorityBits)
    (existingBlob : List Nat) (compact : CompactScript) (compactBodyLen : Nat)
    (k : AuthorityKind) (st : List Nat × Nat) : List Nat × Nat :=
  if ¬ presence.contains k then st
  else if authorities.contains k then
    let blob := st.1 ++ compact.kind.toByte :: compactBodyLen :: compact.body
    let offset :=
      if existingPresence.contains k ∧ st.2 + 1 < existingBlob.length then
        st.2 + 2 + existingBlob.getD (st.2 + 1) 0
      else st.2
    (blob, offset)
  else if existingPresence.contains k ∧ st.2 + 1 < existingBlob.length then
    let bodyLen := existingBlob.getD (st.2 + 1) 0
    if st.2 + 2 + bodyLen ≤ existingBlob.length then
      (st.1 ++ (existingBlob.drop st.2).take (2 + bodyLen), st.2 + 2 + bodyLen)
    else st
  else st

/-- Mirrors `Executor::merge_authority_scripts`: presence byte followed by the
three `append_script` passes in Mint → Blacklist → Master order. -/
def mergeAuthorityScripts (authorities : AuthorityBits) (existingBlob : List Nat)
    (existingPresence presence : AuthorityBits) (compact : CompactScript)
    (compactBodyLen : Nat) : List Nat :=
  (authorityKindOrder.foldl
    (fun st k =>
      appendScript authorities existingPresence presence existingBlob compact
        compactBodyLen k st)
    ([presence.bits], 1)).1

/-- One encoded slot of a well-formed authority scripts blob: `[kind, len,
body]` when the kind is present, empty otherwise.  `slots` assigns each kind
its (kind byte, body). -/
def encChunk (p : AuthorityBits) (slots : AuthorityKind → Nat × List Nat)
    (k : AuthorityKind) : List Nat :=
  if p.contains k then (slots k).1 :: (slots k).2.length :: (slots k).2 else []

/-- A well-formed authority scripts blob: presence byte followed by the present
slots in fixed Mint → Blacklist → Master order. -/
def encodeBlob (p : AuthorityBits) (slots : AuthorityKind → Nat × List Nat) :
    List Nat :=
  p.bits ::
    (encChunk p slots .Mint ++ encChunk p slots .Blacklist ++ encChunk p slots .Master)

/-- The slot a merge writes for kind `k`: the new compact for requested kinds,
the existing slot for other present kinds, nothing for absent kinds. -/
def mergedChunk (authorities p0 p1 : AuthorityBits)
    (slots : AuthorityKind → Nat × List Nat) (c : CompactScript)
    (k : AuthorityKind) : List Nat :=
  if p1.contains k then
    if authorities.contains k then c.kind.toByte :: c.body.length :: c.body
    else encChunk p0 slots k
  else []

lemma getD_append_add (pre l2 : List Nat) (n d : Nat) :
    (pre ++ l2).getD (pre.length + n) d = l2.getD n d := by
  rw [List.getD_eq_getElem?_getD, List.getD_eq_getElem?_getD,
    List.getElem?_append_right (Nat.le_add_right _ _)]
  simp

lemma appendScript_step (authorities p0 p1 : AuthorityBits)
    (slots : AuthorityKind → Nat × List Nat) (c : CompactScript)
    (k : AuthorityKind) (existingBlob pre rest acc : List Nat) (off : Nat)
    (hoff : off = pre.length)
    (hp1 : p1.contains k = (p0.contains k || authorities.contains k))
    (hblob : existingBlob = pre ++ encChunk p0 slots k ++ rest) :
    appendScript authorities p0 p1 existingBlob c c.body.length k (acc, off) =
      (acc ++ mergedChunk authorities p0 p1 slots c k,
        off + (encChunk p0 slots k).length) := by
  subst hoff hblob
  by_cases hA : authorities.contains k
  · have hp : p1.contains k = true := by rw [hp1, hA]; simp
    by_cases h0 : p0.contains k
    · have hchunk : encChunk p0 slots k =
          (slots k).1 :: (slots k).2.length :: (slots k).2 := by
        simp [encChunk, h0]
      have hlen : pre.length + 1 <
          (pre ++ encChunk p0 slots k ++ rest).length := by
        simp [hchunk]
      have hget : (pre ++ encChunk p0 slots k ++ rest).getD (pre.length + 1) 0 =
          (slots k).2.length := by
        rw [List.append_assoc, getD_append_add, hchunk]
        rfl
      simp only [appendScript, hp, hA, mergedChunk]
      rw [if_neg (by simp), if_pos (by simp), if_pos ⟨h0, hlen⟩, hget]
      simp [hchunk]
      omega
    · have hchunk : encChunk p0 slots k = [] := by simp [encChunk, h0]
      simp only [appendScript, hp, hA, mergedChunk]
      rw [if_neg (by simp), if_pos (by simp),
        if_neg (by simp [h0]), hchunk]
      simp [hp]
  · by_cases h0 : p0.contains k
    · have hp : p1.contains k = true := by rw [hp1, h0]; simp
      have hchunk : encChunk p0 slots k =
          (slots k).1 :: (slots k).2.length :: (slots k).2 := by
        simp [encChunk, h0]
      have hlen : pre.length + 1 <
          (pre ++ encChunk p0 slots k ++ rest).length := by
        simp [hchunk]
      have hget : (pre ++ encChunk p0 slots k ++ rest).getD (pre.length + 1) 0 =
          (slots k).2.length := by
        rw [List.append_assoc, getD_append_add, hchunk]
        rfl
      have hbound : pre.length + 2 + (slots k).2.length ≤
          (pre ++ encChunk p0 slots k ++ rest).length := by
        simp [hchunk]
        omega
      have hdrop : ((pre ++ encChunk p0 slots k ++ rest).drop pre.length).take
          (2 + (slots k).2.length) = encChunk p0 slots k := by
        rw [List.append_assoc, List.drop_left]
        refine List.take_left' ?_
        rw [hchunk]
        simp
        omega
      simp only [appendScript, hp, hA, mergedChunk]
      rw [if_neg (by simp), if_neg (by simp), if_pos ⟨h0, hlen⟩, hget,
        if_pos hbound, hdrop]
      simp [hchunk, hp, hA, h0]
      omega
    · have hp : p1.contains k = false := by
        rw [hp1]
        simp [h0, hA]
      have hchunk : encChunk p0 slots k = [] := by simp [encChunk, h0]
      simp only [appendScript, hp, mergedChunk]
      rw [if_pos (by simp [hp]), hchunk]
      simp [hp]

lemma mergedChunk_eq_encChunk (authorities p0 p1 : AuthorityBits)
    (slots : AuthorityKind → Nat × List Nat) (c : CompactScript) (k : AuthorityKind)
    (hp1 : p1.contains k = (p0.contains k || authorities.contains k)) :
    mergedChunk authorities p0 p1 slots c k =
      encChunk p1
        (fun x => if authorities.contains x then (c.kind.toByte, c.body) else slots x)
        k := by
  unfold mergedChunk encChunk
  by_cases hA : authorities.contains k
  · by_cases hp : p1.contains k
    · simp [hA, hp]
    · rw [hp1, hA] at hp; simp at hp
  · by_cases hp : p1.contains k
    · have h0 : p0.contains k = true := by
        rw [hp1] at hp; simpa [hA] using hp
      simp [hA, hp, encChunk, h0]
    · simp [hA, hp]

lemma merge_encode (authorities p0 : AuthorityBits)
    (slots : AuthorityKind → Nat × List Nat) (c : CompactScript) :
    mergeAuthorityScripts authorities (encodeBlob p0 slots) p0
        (p0.insertKinds authorities) c c.body.length =
      encodeBlob (p0.insertKinds authorities)
        (fun k => if authorities.contains k then (c.kind.toByte, c.body)
          else slots k) := by
  have hp1 : ∀ k, (p0.insertKinds authorities).contains k =
      (p0.contains k || authorities.contains k) :=
    fun k => AuthorityBits.contains_insertKinds p0 authorities k
  unfold mergeAuthorityScripts authorityKindOrder
  simp only [List.foldl_cons, List.foldl_nil]
  rw [appendScript_step authorities p0 (p0.insertKinds authorities) slots c .Mint
    (encodeBlob p0 slots) [p0.bits]
    (encChunk p0 slots .Blacklist ++ encChunk p0 slots .Master)
    [(p0.insertKinds authorities).bits] 1 rfl (hp1 .Mint)
    (by simp [encodeBlob, List.append_assoc])]
  rw [appendScript_step authorities p0 (p0.insertKinds authorities) slots c
    .Blacklist (encodeBlob p0 slots) ([p0.bits] ++ encChunk p0 slots .Mint)
    (encChunk p0 slots .Master)
    ([(p0.insertKinds authorities).bits] ++
      mergedChunk authorities p0 (p0.insertKinds authorities) slots c .Mint)
    (1 + (encChunk p0 slots .Mint).length) (by simp; omega) (hp1 .Blacklist)
    (by simp [encodeBlob, List.append_assoc])]
  rw [appendScript_step authorities p0 (p0.insertKinds authorities) slots c
    .Master (encodeBlob p0 slots)
    ([p0.bits] ++ encChunk p0 slots .Mint ++ encChunk p0 slots .Blacklist) []
    ([(p0.insertKinds authorities).bits] ++
      mergedChunk authorities p0 (p0.insertKinds authorities) slots c .Mint ++
      mergedChunk authorities p0 (p0.insertKinds authorities) slots c .Blacklist)
    (1 + (encChunk p0 slots .Mint).length + (encChunk p0 slots .Blacklist).length)
    (by simp; omega) (hp1 .Master)
    (by simp [encodeBlob, List.append_assoc])]
  rw [mergedChunk_eq_encChunk authorities p0 (p0.insertKinds authorities) slots c
    .Mint (hp1 .Mint),
    mergedChunk_eq_encChunk authorities p0 (p0.insertKinds authorities) slots c
    .Blacklist (hp1 .Blacklist),
    mergedChunk_eq_encChunk authorities p0 (p0.insertKinds authorities) slots c
    .Master (hp1 .Master)]
  simp [encodeBlob, List.append_assoc]

lemma testBit_seven_of_ge (i : Nat) (hi : 3 ≤ i) : Nat.testBit 7 i = false :=
  Nat.testBit_lt_two_pow
    (lt_of_lt_of_le (by norm_num) (Nat.pow_le_pow_right (by norm_num) hi))

lemma AuthorityBits.bits_eq_of_contains_eq (b b' : AuthorityBits)
    (h : ∀ k, b.contains k = b'.contains k) : b.bits = b'.bits := by
  apply Nat.eq_of_testBit_eq
  intro i
  rw [AuthorityBits.bits, AuthorityBits.bits, Nat.testBit_and, Nat.testBit_and]
  by_cases hi : i < 3
  · have key : ∀ kk : AuthorityKind, kk.bitIndex = i →
        b.raw.testBit i = b'.raw.testBit i := by
      intro kk hkk
      have hk := h kk
      rw [AuthorityBits.contains_eq_testBit, AuthorityBits.contains_eq_testBit,
        hkk] at hk
      exact hk
    interval_cases i
    · rw [key .Mint rfl]
    · rw [key .Blacklist rfl]
    · rw [key .Master rfl]
  · rw [testBit_seven_of_ge i (by omega)]
    simp

lemma encodeBlob_congr (p q : AuthorityBits)
    (slots : AuthorityKind → Nat × List Nat) (h : p.bits = q.bits) :
    encodeBlob p slots = encodeBlob q slots := by
  have hc : ∀ k, p.contains k = q.contains k :=
    fun k => AuthorityBits.contains_congr_bits p q h k
  unfold encodeBlob encChunk
  rw [h, hc .Mint, hc .Blacklist, hc .Master]

/-- C7.  SetAuthority blob merge: merging into a well-formed blob yields the
well-formed blob with presence = existing ∪ requested, slots kept in fixed
Mint → Blacklist → Master order, the new compact script written exactly into
the requested slots and every other present slot copied unchanged; and
repeating the exact same merge on the resulting blob (with its stored presence
byte re-read, as `process_set_authority` does) reproduces it unchanged. -/
theorem set_authority_merge_idempotent (authorities p0 : AuthorityBits)
    (slots : AuthorityKind → Nat × List Nat) (c : CompactScript) :
    mergeAuthorityScripts authorities (encodeBlob p0 slots) p0
        (p0.insertKinds authorities) c c.body.length =
      encodeBlob (p0.insertKinds authorities)
        (fun k => if authorities.contains k then (c.kind.toByte, c.body)
          else slots k) ∧
    mergeAuthorityScripts authorities
        (mergeAuthorityScripts authorities (encodeBlob p0 slots) p0
          (p0.insertKinds authorities) c c.body.length)
        (AuthorityBits.fromByte
          ((mergeAuthorityScripts authorities (encodeBlob p0 slots) p0
            (p0.insertKinds authorities) c c.body.length).headD 0))
        ((AuthorityBits.fromByte
          ((mergeAuthorityScripts authorities (encodeBlob p0 slots) p0
            (p0.insertKinds authorities) c c.body.length).headD 0)).insertKinds
            authorities)
        c c.body.length =
      mergeAuthorityScripts authorities (encodeBlob p0 slots) p0
        (p0.insertKinds authorities) c c.body.length := by
  have h1 := merge_encode authorities p0 slots c
  refine ⟨h1, ?_⟩
  rw [h1]
  have hhead : (encodeBlob (p0.insertKinds authorities)
      (fun k => if authorities.contains k then (c.kind.toByte, c.body)
        else slots k)).headD 0 = (p0.insertKinds authorities).bits := rfl
  rw [hhead]
  have hp2bits : (AuthorityBits.fromByte ((p0.insertKinds authorities).bits)).bits
      = (p0.insertKinds authorities).bits :=
    AuthorityBits.bits_fromByte_bits (p0.insertKinds authorities)
  have henc : encodeBlob (p0.insertKinds authorities)
      (fun k => if authorities.contains k then (c.kind.toByte, c.body)
        else slots k) =
      encodeBlob (AuthorityBits.fromByte ((p0.insertKinds authorities).bits))
        (fun k => if authorities.contains k then (c.kind.toByte, c.body)
          else slots k) :=
    encodeBlob_congr _ _ _ hp2bits.symm
  rw [henc, merge_encode authorities
    (AuthorityBits.fromByte ((p0.insertKinds authorities).bits))
    (fun k => if authorities.contains k then (c.kind.toByte, c.body)
      else slots k) c]
  have hslots : (fun k => if authorities.contains k then (c.kind.toByte, c.body)
      else if authorities.contains k then (c.kind.toByte, c.body) else slots k) =
      (fun k => if authorities.contains k then (c.kind.toByte, c.body)
        else slots k) := by
    funext k
    by_cases hA : authorities.contains k <;> simp [hA]
  rw [hslots]
  apply encodeBlob_congr
  apply AuthorityBits.bits_eq_of_contains_eq
  intro k
  rw [AuthorityBits.contains_insertKinds,
    AuthorityBits.contains_congr_bits _ _ hp2bits k,
    AuthorityBits.contains_insertKinds]
  cases p0.contains k <;> cases authorities.contains k <;> rfl

/-- C7 witness: a concrete merge writing a new Master slot next to an existing
Mint slot. -/
theorem set_authority_merge_idempotent_witness :
    mergeAuthorityScripts (AuthorityBits.fromByte 4)
        (encodeBlob (AuthorityBits.fromByte 1) (fun _ => (0, [5, 5])))
        (AuthorityBits.fromByte 1)
        ((AuthorityBits.fromByte 1).insertKinds (AuthorityBits.fromByte 4))
        ⟨.P2TR, [9, 9]⟩ 2 =
      encodeBlob ((AuthorityBits.fromByte 1).insertKinds (AuthorityBits.fromByte 4))
        (fun k => if (AuthorityBits.fromByte 4).contains k then
          ((0 : Nat), ([9, 9] : List Nat)) else (0, [5, 5])) := by
  have h := (set_authority_merge_idempotent (AuthorityBits.fromByte 4)
    (AuthorityBits.fromByte 1) (fun _ => (0, [5, 5])) ⟨.P2TR, [9, 9]⟩).1
  simpa [CompactScriptKind.toByte] using h

/-- The `Terms` fields relevant to authority initialization. -/
structure TermsM where
  allowMinting : Bool
  allowBlacklisting : Bool
deriving DecidableEq, Repr

/-- Mirrors `RuneUpdater::build_initial_authority_scripts_blob`: a presence
byte marking all three kinds, then the same `[kind, len, body]` triple pushed
once per kind in Mint → Blacklist → Master order. -/
def buildInitialAuthorityScriptsBlob (compact : CompactScript) : List Nat :=
  (AuthorityBits.fromByte (AuthorityKind.Mint.mask ||| AuthorityKind.Blacklist.mask
    ||| AuthorityKind.Master.mask)).bits ::
  authorityKindOrder.foldl
    (fun acc _ => acc ++ compact.kind.toByte :: compact.body.length :: compact.body)
    []

/-- Mirrors the authority-state writes of `RuneUpdater::create_rune_entry`
(the flags row and the scripts row written for the newly etched rune).  The
`Artifact::Cenotaph` arm of the match creates the entry with no authority
writes at all; the `Artifact::Runestone` arm writes
`{Master} ∪ ({Mint} iff allow_minting) ∪ ({Blacklist} iff allow_blacklisting)`
and, when the first input's prevout script converts, the initial scripts
blob. -/
def createRuneEntryAuthorityWrites (isCenotaphArtifact : Bool)
    (terms : Option TermsM) (firstInputPrevoutScript : Option Script) :
    Option Nat × Option (List Nat) :=
  if isCenotaphArtifact then (none, none)
  else
    let allowMinting := (terms.map TermsM.allowMinting).getD false
    let allowBlacklisting := (terms.map TermsM.allowBlacklisting).getD false
    let flags0 := AuthorityBits.empty.extend .Master
    let flags1 := if allowMinting then flags0.insert .Mint else flags0
    let flags2 := if allowBlacklisting then flags1.insert .Blacklist else flags1
    let scriptsWrite :=
      match firstInputPrevoutScript with
      | none => none
      | some s =>
        match CompactScript.tryFromScript s with
        | some compact => some (buildInitialAuthorityScriptsBlob compact)
        | none => none
    (some flags2.bits, scriptsWrite)

/-- C10 (amended).  For a rune created by a *Runestone* etching the stored
flags contain Master, contain Mint iff `allow_minting`, and contain Blacklist
iff `allow_blacklisting`; when the first input's prevout converts to a
CompactScript, the written blob seeds that single compact into all three
slots; when it does not convert, no scripts row is written.  (For a
commit-bearing Cenotaph no authority rows are written at all — see the
counterexample.) -/
theorem rune_creation_authority_state (terms : Option TermsM)
    (fs : Option Script) :
    (∃ fb, (createRuneEntryAuthorityWrites false terms fs).1 = some fb ∧
      (AuthorityBits.fromByte fb).contains .Master = true ∧
      (AuthorityBits.fromByte fb).contains .Mint =
        (terms.map TermsM.allowMinting).getD false ∧
      (AuthorityBits.fromByte fb).contains .Blacklist =
        (terms.map TermsM.allowBlacklisting).getD false) ∧
    (∀ s compact, fs = some s → CompactScript.tryFromScript s = some compact →
      (createRuneEntryAuthorityWrites false terms fs).2 =
        some (buildInitialAuthorityScriptsBlob compact) ∧
      buildInitialAuthorityScriptsBlob compact =
        encodeBlob (AuthorityBits.fromByte 7)
          (fun _ => (compact.kind.toByte, compact.body))) ∧
    (∀ s, fs = some s → CompactScript.tryFromScript s = none →
      (createRuneEntryAuthorityWrites false terms fs).2 = none) := by
  refine ⟨?_, ?_, ?_⟩
  · rcases ham : (terms.map TermsM.allowMinting).getD false <;>
      rcases hab : (terms.map TermsM.allowBlacklisting).getD false
    · refine ⟨4, ?_, by decide, by decide, by decide⟩
      simp [createRuneEntryAuthorityWrites, ham, hab]
      decide
    · refine ⟨6, ?_, by decide, by decide, by decide⟩
      simp [createRuneEntryAuthorityWrites, ham, hab]
      decide
    · refine ⟨5, ?_, by decide, by decide, by decide⟩
      simp [createRuneEntryAuthorityWrites, ham, hab]
      decide
    · refine ⟨7, ?_, by decide, by decide, by decide⟩
      simp [createRuneEntryAuthorityWrites, ham, hab]
      decide
  · intro s compact hfs hconv
    subst hfs
    constructor
    · simp [createRuneEntryAuthorityWrites, hconv]
    · have hch : ∀ k : AuthorityKind,
          encChunk (AuthorityBits.fromByte 7)
            (fun _ => (compact.kind.toByte, compact.body)) k =
          compact.kind.toByte :: compact.body.length :: compact.body := by
        intro k
        have hc : (AuthorityBits.fromByte 7).contains k = true := by
          cases k <;> decide
        simp [encChunk, hc]
      have hmask : (AuthorityKind.Mint.mask ||| AuthorityKind.Blacklist.mask |||
          AuthorityKind.Master.mask) = 7 := by decide
      simp only [buildInitialAuthorityScriptsBlob, encodeBlob, authorityKindOrder,
        List.foldl_cons, List.foldl_nil, hmask]
      rw [hch .Mint, hch .Blacklist, hch .Master]
      simp [List.append_assoc]
  · intro s hfs hnone
    subst hfs
    simp [createRuneEntryAuthorityWrites, hnone]

/-- C10 counterexample: for a commit-bearing Cenotaph etching, no authority
flags row is written (the stored flags default to empty, which does not
contain Master), and no scripts row is seeded even for a convertible first
prevout. -/
theorem rune_creation_authority_state_counterexample :
    createRuneEntryAuthorityWrites true (some ⟨true, true⟩) (some scriptA) =
      (none, none) ∧ AuthorityBits.empty.contains .Master = false := by decide

/-- C10 witness: concrete runestone etching with a convertible P2TR prevout. -/
theorem rune_creation_authority_state_witness :
    (createRuneEntryAuthorityWrites false (some ⟨true, false⟩)
        (some scriptA)).2 =
      some (buildInitialAuthorityScriptsBlob ⟨.P2TR, bodyA⟩) :=
  ((rune_creation_authority_state (some ⟨true, false⟩) (some scriptA)).2.1
    scriptA ⟨.P2TR, bodyA⟩ rfl (by decide)).1

/-- A decoded edict `(id, amount, output)`. -/
structure Edict where
  id : RuneId
  amount : Nat
  output : Nat
deriving DecidableEq, Repr

/-- The per-transaction environment seen by the updater: the prevout script
oracle (ScriptCache + node RPC), the platform hash, the per-rune authority
context as loaded from the store, and the transaction's input prevouts and
output scriptPubKeys. -/
structure TxEnv where
  fetch : OutPoint → Option Script
  hashFn : HashFn
  ctxOf : RuneId → AuthorityContext
  inputs : List OutPoint
  outputs : List Script

/-- The blacklist closure passed by `index_runes` to
`calculate_unallocated`: fetch the prevout's script (unknown prevouts are not
blacklisted) and test it against the rune's context. -/
def prevoutBlacklisted (env : TxEnv) (id : RuneId) (op : OutPoint) : Bool :=
  match env.fetch op with
  | some s => Authority.isBlacklisted env.hashFn (env.ctxOf id) s
  | none => false

/-- Mirrors `Allocation::calculate_unallocated` over decoded input rows (an
absent row contributes nothing): each input's row is removed; blacklisted
(id, amount) pairs are collected as a locked row re-inserted under the same
outpoint, the rest accumulate into the unallocated map. -/
def calcRowStep (isBlk : RuneId → OutPoint → Bool)
    (st : (RuneId → Nat) × List (OutPoint × List (RuneId × Nat)))
    (row : OutPoint × Option (List (RuneId × Nat))) :
    (RuneId → Nat) × List (OutPoint × List (RuneId × Nat)) :=
  match row.2 with
  | none => st
  | some entries =>
    let locked := entries.filter (fun e => isBlk e.1 row.1)
    let unalloc := entries.foldl
      (fun u e =>
        if isBlk e.1 row.1 then u
        else Function.update u e.1 (u e.1 + e.2))
      st.1
    (unalloc, if locked.isEmpty then st.2 else st.2 ++ [(row.1, locked)])

def calculateUnallocated (isBlk : RuneId → OutPoint → Bool)
    (rows : List (OutPoint × Option (List (RuneId × Nat)))) :
    (RuneId → Nat) × List (OutPoint × List (RuneId × Nat)) :=
  rows.foldl (calcRowStep isBlk) (fun _ => 0, [])

/-- Running edict-processing state: the unallocated map, the per-output
allocated maps, and the per-rune cached supply_extra and its persisted row. -/
structure EdictState where
  unalloc : RuneId → Nat
  alloc : Nat → RuneId → Nat
  extra : RuneId → Nat
  extraRow : RuneId → Option Nat

/-- Mirrors the `allocate` closure of `process_edicts`: a positive amount is
silently rejected (kept with the sender) when the destination's scriptPubKey
is blacklisted for the rune, otherwise it moves from the balance to the
destination's allocation. -/
def allocateStep (env : TxEnv) (id : RuneId) (amount outIdx : Nat)
    (b : Nat) (alloc : Nat → RuneId → Nat) : Nat × (Nat → RuneId → Nat) :=
  if amount > 0 then
    if Authority.isBlacklisted env.hashFn (env.ctxOf id)
        (env.outputs.getD outIdx []) then
      (b, alloc)
    else
      (b - amount,
        Function.update alloc outIdx
          (Function.update (alloc outIdx) id (alloc outIdx id + amount)))
  else (b, alloc)

/-- The non-OP_RETURN output indices, the destinations of a distribute-all
edict (`output == tx.output.len()`). -/
def edictDestinations (env : TxEnv) : List Nat :=
  (List.range env.outputs.length).filter
    (fun i => ¬ (env.outputs.getD i []).isOpReturn)

/-- The distribute-all arm of the edict loop: with no destinations the whole
balance stays unallocated; with `amount == 0` the balance is split as
`q = balance / len` plus one extra unit for the first `balance % len`
destinations; otherwise each destination receives `min(amount, remaining)`. -/
def edictAllocateAll (env : TxEnv) (id : RuneId) (amount balance : Nat)
    (alloc : Nat → RuneId → Nat) : Nat × (Nat → RuneId → Nat) :=
  let destinations := edictDestinations env
  if destinations.isEmpty then (balance, alloc)
  else if amount = 0 then
    let q := balance / destinations.length
    let rem := balance % destinations.length
    destinations.enum.foldl
      (fun (p : Nat × (Nat → RuneId → Nat)) io =>
        allocateStep env id (if io.1 < rem then q + 1 else q) io.2 p.1 p.2)
      (balance, alloc)
  else
    destinations.foldl
      (fun (p : Nat × (Nat → RuneId → Nat)) out =>
        allocateStep env id (min amount p.1) out p.1 p.2)
      (balance, alloc)

/-- Mirrors one iteration of the edict loop of `Executor::process_edicts`:
skip out-of-range outputs, resolve the `0:0` id against the etched rune, run
the authority-mint phase, then allocate (distribute-to-all when
`output == tx.output.len()`, single output otherwise). -/
def processEdict (env : TxEnv) (etched : Option RuneId) (st : EdictState)
    (e : Edict) : EdictState :=
  if e.output > env.outputs.length then st
  else
    match (if e.id = RuneId.zero then etched else some e.id) with
    | none => st
    | some id =>
      let m := edictMintPhase env.fetch env.hashFn (env.ctxOf id) env.inputs
        e.amount (st.unalloc id) (st.extra id) (st.extraRow id)
      let balance := m.1
      let extra := Function.update st.extra id m.2.1
      let extraRow := Function.update st.extraRow id m.2.2
      if e.output = env.outputs.length then
        let res := edictAllocateAll env id e.amount balance st.alloc
        ⟨Function.update st.unalloc id res.1, res.2, extra, extraRow⟩
      else
        let amt := if e.amount = 0 then balance else min e.amount balance
        let res := allocateStep env id amt e.output balance st.alloc
        ⟨Function.update st.unalloc id res.1, res.2, extra, extraRow⟩

/-- The default vout of the sweep: the runestone pointer when in range, else
the first non-OP_RETURN output. -/
def defaultVout (env : TxEnv) (pointer : Option Nat) : Option Nat :=
  match
    (match pointer with
      | some p => if p < env.outputs.length then some p else none
      | none => none)
  with
  | some v => some v
  | none =>
    (List.range env.outputs.length).find?
      (fun i => ¬ (env.outputs.getD i []).isOpReturn)

/-- The first (sweep) phase of `RuneUpdater::process_cenotaph_and_balances`:
a cenotaph moves every unallocated amount into the burn column; otherwise the
default vout (when it exists) receives each rune's unallocated balance except
when that destination is blacklisted for the rune — in that case the amount is
dropped with only a log line — and with no default vout the amounts burn. -/
def sweptPair (env : TxEnv) (isCenotaph : Bool) (pointer : Option Nat)
    (unalloc : RuneId → Nat) (alloc : Nat → RuneId → Nat) :
    (Nat → RuneId → Nat) × (RuneId → Nat) :=
  if isCenotaph then (alloc, fun r => unalloc r)
  else
    match defaultVout env pointer with
    | some v =>
      (fun v2 r =>
        if v2 = v then
          if unalloc r = 0 then alloc v2 r
          else if Authority.isBlacklisted env.hashFn (env.ctxOf r)
              (env.outputs.getD v []) then alloc v2 r
          else alloc v2 r + unalloc r
        else alloc v2 r,
       fun _ => 0)
    | none => (alloc, fun r => if unalloc r > 0 then unalloc r else 0)

/-- Mirrors `RuneUpdater::process_cenotaph_and_balances`: after the sweep
phase, allocations on OP_RETURN outputs are burned and the rest are written as
balance rows.  Returns (written rows, burned). -/
def processCenotaphAndBalances (env : TxEnv) (isCenotaph : Bool)
    (pointer : Option Nat) (unalloc : RuneId → Nat)
    (alloc : Nat → RuneId → Nat) :
    (Nat → RuneId → Nat) × (RuneId → Nat) :=
  let swept := sweptPair env isCenotaph pointer unalloc alloc
  (fun v r =>
    if v < env.outputs.length ∧ ¬ (env.outputs.getD v []).isOpReturn then
      swept.1 v r
    else 0,
   fun r => swept.2 r +
    ((List.range env.outputs.length).map
      (fun v => if (env.outputs.getD v []).isOpReturn then swept.1 v r else 0)).sum)

/-- The artifact deciphered from the transaction, reduced to the fields the
balance pipeline reads. -/
inductive ArtifactModel
  | noArtifact
  | cenotaph
  | runestone (edicts : List Edict) (pointer : Option Nat) (premine : Nat)

/-- Whether the artifact is a cenotaph (burn-everything sweep). -/
def artifactIsCenotaph : ArtifactModel → Bool
  | .cenotaph => true
  | _ => false

/-- The runestone's pointer, if any. -/
def artifactPointer : ArtifactModel → Option Nat
  | .runestone _ p _ => p
  | _ => none

/-- The runestone's edicts (only a runestone executes edicts). -/
def artifactEdicts : ArtifactModel → List Edict
  | .runestone es _ _ => es
  | _ => []

/-- The open-mint credit applied to the unallocated map: `artifact.mint()` is
only consulted when there is an artifact, and a successful mintable lookup
adds the mint amount to the minted rune's balance. -/
def mintCredit (artifact : ArtifactModel) (mintRes : Option (RuneId × Nat))
    (u : RuneId → Nat) : RuneId → Nat :=
  match artifact, mintRes with
  | .noArtifact, _ => u
  | _, some ia => Function.update u ia.1 (u ia.1 + ia.2)
  | _, none => u

/-- The premine credit applied to the unallocated map when a runestone
etches. -/
def premineCredit (artifact : ArtifactModel) (etched : Option RuneId)
    (u : RuneId → Nat) : RuneId → Nat :=
  match artifact, etched with
  | .runestone _ _ premine, some id => Function.update u id (u id + premine)
  | _, _ => u

/-- The balance-relevant outcome of `index_runes` for one transaction. -/
structure TxOutcome where
  written : Nat → RuneId → Nat
  burned : RuneId → Nat
  locked : List (OutPoint × List (RuneId × Nat))
  sweepInput : RuneId → Nat
  extraFinal : RuneId → Nat
  extraRowFinal : RuneId → Option Nat

/-- Mirrors the balance flow of `RuneUpdater::index_runes`: input rows are
consumed (locked amounts re-pinned), the open mint and premine are credited,
the runestone's edicts are executed, and the cenotaph/default sweep and the
final row writes are applied.  `mintRes` is the result of the open-mint lookup
(`artifact.mint()` + mintable check) and `etched` the resolved etching. -/
def indexRunesBalances (env : TxEnv) (artifact : ArtifactModel)
    (mintRes : Option (RuneId × Nat)) (etched : Option RuneId)
    (rows : List (OutPoint × Option (List (RuneId × Nat))))
    (extraRow0 : RuneId → Option Nat) : TxOutcome :=
  let cu := calculateUnallocated (prevoutBlacklisted env) rows
  let unalloc2 := premineCredit artifact etched (mintCredit artifact mintRes cu.1)
  let st0 : EdictState :=
    ⟨unalloc2, fun _ _ => 0, fun id => (env.ctxOf id).supplyExtra, extraRow0⟩
  let st1 := (artifactEdicts artifact).foldl (processEdict env etched) st0
  let fin := processCenotaphAndBalances env (artifactIsCenotaph artifact)
    (artifactPointer artifact) st1.unalloc st1.alloc
  ⟨fin.1, fin.2, cu.2, st1.unalloc, st1.extra, st1.extraRow⟩

/-- The contribution of a decoded row entry list to rune `r`. -/
def entriesSumFor (r : RuneId) (es : List (RuneId × Nat)) : Nat :=
  (es.map (fun e => if e.1 = r then e.2 else 0)).sum

/-- The contribution of one (possibly absent) input row to rune `r`. -/
def rowSumFor (r : RuneId) (row : OutPoint × Option (List (RuneId × Nat))) : Nat :=
  match row.2 with
  | none => 0
  | some es => entriesSumFor r es

/-- The total input-row balance of rune `r` across the consumed rows. -/
def rowsSumFor (r : RuneId)
    (rows : List (OutPoint × Option (List (RuneId × Nat)))) : Nat :=
  (rows.map (rowSumFor r)).sum

/-- The total locked (re-pinned) balance of rune `r`. -/
def lockedSumFor (r : RuneId)
    (lrows : List (OutPoint × List (RuneId × Nat))) : Nat :=
  (lrows.map (fun row => entriesSumFor r row.2)).sum

/-- The total allocation of rune `r` across the first `n` outputs. -/
def allocSumN (n : Nat) (alloc : Nat → RuneId → Nat) (r : RuneId) : Nat :=
  ((List.range n).map (fun v => alloc v r)).sum

/-- The total of rune `r` written to the transaction's output rows. -/
def writtenSumN (n : Nat) (written : Nat → RuneId → Nat) (r : RuneId) : Nat :=
  ((List.range n).map (fun v => written v r)).sum

/-- The open-mint credit of rune `r` (zero without an artifact). -/
def mintAddFor (artifact : ArtifactModel) (mintRes : Option (RuneId × Nat))
    (r : RuneId) : Nat :=
  match artifact, mintRes with
  | .noArtifact, _ => 0
  | _, some ia => if ia.1 = r then ia.2 else 0
  | _, none => 0

/-- The premine credit of rune `r` (only for a runestone that etched). -/
def premineAddFor (artifact : ArtifactModel) (etched : Option RuneId)
    (r : RuneId) : Nat :=
  match artifact, etched with
  | .runestone _ _ premine, some id => if id = r then premine else 0
  | _, _ => 0

/-- The amount of rune `r` the sweep silently drops: the whole unallocated
balance when the default destination exists but is blacklisted for `r`.  These
amounts are neither credited to an output, nor burned, nor re-pinned. -/
def droppedByBlacklistedDefault (env : TxEnv) (isCenotaph : Bool)
    (pointer : Option Nat) (unalloc : RuneId → Nat) (r : RuneId) : Nat :=
  if isCenotaph then 0
  else
    match defaultVout env pointer with
    | some v =>
      if unalloc r ≠ 0 ∧ Authority.isBlacklisted env.hashFn (env.ctxOf r)
          (env.outputs.getD v []) then unalloc r
      else 0
    | none => 0


lemma sum_map_split {α : Type} (l : List α) (f g h : α → Nat)
    (hfg : ∀ x ∈ l, f x = g x + h x) :
    (l.map f).sum = (l.map g).sum + (l.map h).sum := by
  induction l with
  | nil => simp
  | cons a t ih =>
    simp only [List.map_cons, List.sum_cons]
    rw [hfg a (List.mem_cons_self a t),
      ih (fun x hx => hfg x (List.mem_cons_of_mem a hx))]
    omega

lemma entriesSumFor_filter_split (p : RuneId × Nat → Bool)
    (es : List (RuneId × Nat)) (r : RuneId) :
    entriesSumFor r es =
      entriesSumFor r (es.filter p) +
        entriesSumFor r (es.filter (fun e => !p e)) := by
  induction es with
  | nil => simp [entriesSumFor]
  | cons e t ih =>
    rcases hp : p e
    · have h1 : (e :: t).filter p = t.filter p := by simp [List.filter_cons, hp]
      have h2 : (e :: t).filter (fun e => !p e) =
          e :: t.filter (fun e => !p e) := by simp [List.filter_cons, hp]
      rw [h1, h2]
      simp only [entriesSumFor, List.map_cons, List.sum_cons] at *
      omega
    · have h1 : (e :: t).filter p = e :: t.filter p := by simp [List.filter_cons, hp]
      have h2 : (e :: t).filter (fun e => !p e) = t.filter (fun e => !p e) := by
        simp [List.filter_cons, hp]
      rw [h1, h2]
      simp only [entriesSumFor, List.map_cons, List.sum_cons] at *
      omega

lemma entries_fold_add (p : RuneId × Nat → Bool) (es : List (RuneId × Nat)) :
    ∀ (u : RuneId → Nat) (r : RuneId),
    (es.foldl
      (fun u e => if p e then u else Function.update u e.1 (u e.1 + e.2)) u) r =
      u r + entriesSumFor r (es.filter (fun e => !p e)) := by
  induction es with
  | nil => intro u r; simp [entriesSumFor]
  | cons e t ih =>
    intro u r
    rcases hp : p e
    · rw [List.foldl_cons, if_neg (by simp [hp]), ih]
      have hfil : (e :: t).filter (fun e => !p e) =
          e :: t.filter (fun e => !p e) := by simp [List.filter_cons, hp]
      rw [hfil]
      simp only [entriesSumFor, List.map_cons, List.sum_cons]
      rw [Function.update_apply]
      by_cases hr : e.1 = r
      · rw [if_pos hr.symm, if_pos hr, hr]
        omega
      · rw [if_neg (fun hc => hr hc.symm), if_neg hr]
        omega
    · rw [List.foldl_cons, if_pos (by simp [hp]), ih]
      have hfil : (e :: t).filter (fun e => !p e) = t.filter (fun e => !p e) := by
        simp [List.filter_cons, hp]
      rw [hfil]

lemma lockedSumFor_append (r : RuneId) (l : List (OutPoint × List (RuneId × Nat)))
    (x : OutPoint × List (RuneId × Nat)) :
    lockedSumFor r (l ++ [x]) = lockedSumFor r l + entriesSumFor r x.2 := by
  simp [lockedSumFor]

lemma calcRowStep_inv (isBlk : RuneId → OutPoint → Bool)
    (p : (RuneId → Nat) × List (OutPoint × List (RuneId × Nat)))
    (row : OutPoint × Option (List (RuneId × Nat))) (r : RuneId) :
    (calcRowStep isBlk p row).1 r + lockedSumFor r (calcRowStep isBlk p row).2 =
      p.1 r + lockedSumFor r p.2 + rowSumFor r row := by
  cases hrow : row.2 with
  | none => simp [calcRowStep, rowSumFor, hrow]
  | some es =>
    simp only [calcRowStep, rowSumFor, hrow]
    have hu := entries_fold_add (fun e => isBlk e.1 row.1) es p.1 r
    have hsplit := entriesSumFor_filter_split (fun e => isBlk e.1 row.1) es r
    beta_reduce at hu hsplit
    by_cases hemp : (es.filter (fun e => isBlk e.1 row.1)).isEmpty
    · rw [if_pos hemp, hu]
      rw [List.isEmpty_iff] at hemp
      rw [hemp] at hsplit
      rw [show entriesSumFor r ([] : List (RuneId × Nat)) = 0 from rfl] at hsplit
      clear hu
      omega
    · rw [if_neg hemp, hu, lockedSumFor_append]
      clear hu
      simp only
      omega

lemma calcUnalloc_fold_inv (isBlk : RuneId → OutPoint → Bool)
    (rows : List (OutPoint × Option (List (RuneId × Nat)))) :
    ∀ (p : (RuneId → Nat) × List (OutPoint × List (RuneId × Nat))) (r : RuneId),
    (rows.foldl (calcRowStep isBlk) p).1 r +
      lockedSumFor r (rows.foldl (calcRowStep isBlk) p).2 =
      p.1 r + lockedSumFor r p.2 + rowsSumFor r rows := by
  induction rows with
  | nil => intro p r; simp [rowsSumFor]
  | cons row rest ih =>
    intro p r
    rw [List.foldl_cons, ih (calcRowStep isBlk p row) r]
    have hstep := calcRowStep_inv isBlk p row r
    simp only [rowsSumFor, List.map_cons, List.sum_cons]
    simp only [rowsSumFor] at *
    omega

lemma calculateUnallocated_conservation (isBlk : RuneId → OutPoint → Bool)
    (rows : List (OutPoint × Option (List (RuneId × Nat)))) (r : RuneId) :
    (calculateUnallocated isBlk rows).1 r +
      lockedSumFor r (calculateUnallocated isBlk rows).2 = rowsSumFor r rows := by
  have h := calcUnalloc_fold_inv isBlk rows (fun _ => 0, []) r
  simp only [calculateUnallocated]
  simpa [lockedSumFor] using h

lemma sum_range_congr_except (f g : Nat → Nat) (d : Nat) :
    ∀ (n v : Nat), v < n → (∀ i, i ≠ v → g i = f i) → g v = f v + d →
    ((List.range n).map g).sum = ((List.range n).map f).sum + d := by
  intro n
  induction n with
  | zero => intro v hv _ _; exact absurd hv (Nat.not_lt_zero v)
  | succ n ih =>
    intro v hv hoff hat
    rw [List.range_succ, List.map_append, List.map_append, List.sum_append,
      List.sum_append]
    simp only [List.map_cons, List.map_nil, List.sum_cons, List.sum_nil]
    by_cases hvn : v = n
    · have hmap : (List.range n).map g = (List.range n).map f := by
        apply List.map_congr_left
        intro i hi
        rw [List.mem_range] at hi
        exact hoff i (by omega)
      have hgn : g n = f n + d := by rw [← hvn]; exact hat
      rw [hmap, hgn]
      omega
    · have hv' : v < n := by omega
      rw [hoff n (fun h => hvn h.symm), ih v hv' hoff hat]
      omega

lemma allocSumN_update (n v : Nat) (alloc : Nat → RuneId → Nat) (id : RuneId)
    (x : Nat) (hv : v < n) (r : RuneId) :
    allocSumN n (Function.update alloc v
        (Function.update (alloc v) id (alloc v id + x))) r =
      allocSumN n alloc r + (if r = id then x else 0) := by
  simp only [allocSumN]
  apply sum_range_congr_except (fun i => alloc i r) _ _ n v hv
  · intro i hi
    rw [Function.update_noteq hi]
  · rw [Function.update_same, Function.update_apply]
    by_cases hr : r = id
    · rw [if_pos hr, if_pos hr, hr]
    · rw [if_neg hr, if_neg hr]
      omega

lemma allocateStep_conserve (env : TxEnv) (id : RuneId)
    (amount outIdx b : Nat) (alloc : Nat → RuneId → Nat)
    (ham : amount ≤ b) (hout : outIdx < env.outputs.length) :
    (allocateStep env id amount outIdx b alloc).1 +
        allocSumN env.outputs.length
          (allocateStep env id amount outIdx b alloc).2 id =
      b + allocSumN env.outputs.length alloc id ∧
    ∀ r, r ≠ id →
      allocSumN env.outputs.length
          (allocateStep env id amount outIdx b alloc).2 r =
        allocSumN env.outputs.length alloc r := by
  by_cases h1 : amount > 0
  · cases h2 : Authority.isBlacklisted env.hashFn (env.ctxOf id)
        (env.outputs.getD outIdx []) with
    | true =>
      have hres : allocateStep env id amount outIdx b alloc = (b, alloc) := by
        simp only [allocateStep, if_pos h1]
        rw [if_pos h2]
      rw [hres]
      exact ⟨rfl, fun _ _ => rfl⟩
    | false =>
      have hres : allocateStep env id amount outIdx b alloc =
          (b - amount, Function.update alloc outIdx
            (Function.update (alloc outIdx) id (alloc outIdx id + amount))) := by
        simp only [allocateStep, if_pos h1]
        rw [if_neg (by rw [h2]; exact Bool.false_ne_true)]
      rw [hres]
      constructor
      · rw [allocSumN_update env.outputs.length outIdx alloc id amount hout id,
          if_pos rfl]
        omega
      · intro r hr
        rw [allocSumN_update env.outputs.length outIdx alloc id amount hout r,
          if_neg hr]
        omega
  · have hres : allocateStep env id amount outIdx b alloc = (b, alloc) := by
      simp [allocateStep, h1]
    rw [hres]
    exact ⟨rfl, fun _ _ => rfl⟩

lemma allocateStep_fst_le (env : TxEnv) (id : RuneId)
    (amount outIdx b : Nat) (alloc : Nat → RuneId → Nat) :
    (allocateStep env id amount outIdx b alloc).1 ≤ b ∧
      b ≤ (allocateStep env id amount outIdx b alloc).1 + amount := by
  by_cases h1 : amount > 0
  · cases h2 : Authority.isBlacklisted env.hashFn (env.ctxOf id)
        (env.outputs.getD outIdx []) with
    | true =>
      have hres : allocateStep env id amount outIdx b alloc = (b, alloc) := by
        simp only [allocateStep, if_pos h1]
        rw [if_pos h2]
      rw [hres]
      exact ⟨Nat.le_refl b, Nat.le_add_right b amount⟩
    | false =>
      have hres : (allocateStep env id amount outIdx b alloc).1 = b - amount := by
        simp only [allocateStep, if_pos h1]
        rw [if_neg (by rw [h2]; exact Bool.false_ne_true)]
      rw [hres]
      omega
  · have hres : allocateStep env id amount outIdx b alloc = (b, alloc) := by
      simp [allocateStep, h1]
    rw [hres]
    exact ⟨Nat.le_refl b, Nat.le_add_right b amount⟩

/-- The edict allocation step applied to an (amount, output) pair. -/
def allocApply (env : TxEnv) (id : RuneId)
    (p : Nat × (Nat → RuneId → Nat)) (ao : Nat × Nat) :
    Nat × (Nat → RuneId → Nat) :=
  allocateStep env id ao.1 ao.2 p.1 p.2

lemma allocPairsFold_conserve (env : TxEnv) (id : RuneId)
    (pairs : List (Nat × Nat)) :
    ∀ (p : Nat × (Nat → RuneId → Nat)),
    (pairs.map Prod.fst).sum ≤ p.1 →
    (∀ ao ∈ pairs, ao.2 < env.outputs.length) →
    ((pairs.foldl (allocApply env id) p).1 +
        allocSumN env.outputs.length
          (pairs.foldl (allocApply env id) p).2 id =
      p.1 + allocSumN env.outputs.length p.2 id ∧
    ∀ r, r ≠ id →
      allocSumN env.outputs.length (pairs.foldl (allocApply env id) p).2 r =
        allocSumN env.outputs.length p.2 r) := by
  induction pairs with
  | nil => intro p _ _; exact ⟨rfl, fun _ _ => rfl⟩
  | cons ao rest ih =>
    intro p hsum hout
    rw [List.foldl_cons]
    simp only [List.map_cons, List.sum_cons] at hsum
    have ham : ao.1 ≤ p.1 := by omega
    have hstep := allocateStep_conserve env id ao.1 ao.2 p.1 p.2 ham
      (hout ao (List.mem_cons_self ao rest))
    have hle := allocateStep_fst_le env id ao.1 ao.2 p.1 p.2
    have hrest := ih (allocateStep env id ao.1 ao.2 p.1 p.2)
      (by omega)
      (fun x hx => hout x (List.mem_cons_of_mem ao hx))
    have happ : allocApply env id p ao = allocateStep env id ao.1 ao.2 p.1 p.2 :=
      rfl
    rw [happ]
    constructor
    · rw [hrest.1, hstep.1]
    · intro r hr
      rw [hrest.2 r hr, hstep.2 r hr]

lemma allocMinFold_conserve (env : TxEnv) (id : RuneId) (amount : Nat)
    (outs : List Nat) :
    ∀ (p : Nat × (Nat → RuneId → Nat)),
    (∀ o ∈ outs, o < env.outputs.length) →
    ((outs.foldl
        (fun (p : Nat × (Nat → RuneId → Nat)) out =>
          allocateStep env id (min amount p.1) out p.1 p.2) p).1 +
        allocSumN env.outputs.length
          (outs.foldl
            (fun (p : Nat × (Nat → RuneId → Nat)) out =>
              allocateStep env id (min amount p.1) out p.1 p.2) p).2 id =
      p.1 + allocSumN env.outputs.length p.2 id ∧
    ∀ r, r ≠ id →
      allocSumN env.outputs.length
          (outs.foldl
            (fun (p : Nat × (Nat → RuneId → Nat)) out =>
              allocateStep env id (min amount p.1) out p.1 p.2) p).2 r =
        allocSumN env.outputs.length p.2 r) := by
  induction outs with
  | nil => intro p _; exact ⟨rfl, fun _ _ => rfl⟩
  | cons o rest ih =>
    intro p hout
    rw [List.foldl_cons]
    have hstep := allocateStep_conserve env id (min amount p.1) o p.1 p.2
      (Nat.min_le_right amount p.1) (hout o (List.mem_cons_self o rest))
    have hrest := ih (allocateStep env id (min amount p.1) o p.1 p.2)
      (fun x hx => hout x (List.mem_cons_of_mem o hx))
    constructor
    · rw [hrest.1, hstep.1]
    · intro r hr
      rw [hrest.2 r hr, hstep.2 r hr]

lemma sum_if_lt (q rem : Nat) :
    ∀ len, ((List.range len).map (fun i => if i < rem then q + 1 else q)).sum =
      q * len + min rem len := by
  intro len
  induction len with
  | zero => simp
  | succ n ih =>
    rw [List.range_succ, List.map_append, List.sum_append]
    simp only [List.map_cons, List.map_nil, List.sum_cons, List.sum_nil]
    rw [ih, Nat.mul_succ]
    by_cases hn : n < rem
    · rw [if_pos hn]
      omega
    · rw [if_neg hn]
      omega

lemma edictDestinations_lt (env : TxEnv) (o : Nat)
    (h : o ∈ edictDestinations env) : o < env.outputs.length := by
  simp only [edictDestinations, List.mem_filter, List.mem_range] at h
  exact h.1

/-- The (amount, output) pair of one distribute-all destination when the
edict amount is zero: `balance / len` runes, plus one for the first
`balance % len` destinations. -/
def distPair (balance len : Nat) (io : Nat × Nat) : Nat × Nat :=
  (if io.1 < balance % len then balance / len + 1 else balance / len, io.2)

lemma edictAllocateAll_conserve (env : TxEnv) (id : RuneId)
    (amount balance : Nat) (alloc : Nat → RuneId → Nat) :
    (edictAllocateAll env id amount balance alloc).1 +
        allocSumN env.outputs.length
          (edictAllocateAll env id amount balance alloc).2 id =
      balance + allocSumN env.outputs.length alloc id ∧
    ∀ r, r ≠ id →
      allocSumN env.outputs.length
          (edictAllocateAll env id amount balance alloc).2 r =
        allocSumN env.outputs.length alloc r := by
  by_cases hemp : (edictDestinations env).isEmpty = true
  · have hres : edictAllocateAll env id amount balance alloc =
        (balance, alloc) := by
      simp only [edictAllocateAll]
      rw [if_pos hemp]
    rw [hres]
    exact ⟨rfl, fun _ _ => rfl⟩
  · by_cases hamt : amount = 0
    · have hres : edictAllocateAll env id amount balance alloc =
          (edictDestinations env).enum.foldl
            (fun (p : Nat × (Nat → RuneId → Nat)) io =>
              allocateStep env id
                (if io.1 < balance % (edictDestinations env).length then
                  balance / (edictDestinations env).length + 1
                else balance / (edictDestinations env).length) io.2 p.1 p.2)
            (balance, alloc) := by
        simp only [edictAllocateAll]
        rw [if_neg hemp, if_pos hamt]
      rw [hres]
      have hconv : (edictDestinations env).enum.foldl
            (fun (p : Nat × (Nat → RuneId → Nat)) io =>
              allocateStep env id
                (if io.1 < balance % (edictDestinations env).length then
                  balance / (edictDestinations env).length + 1
                else balance / (edictDestinations env).length) io.2 p.1 p.2)
            (balance, alloc) =
          ((edictDestinations env).enum.map
            (distPair balance (edictDestinations env).length)).foldl
            (allocApply env id) (balance, alloc) :=
        (List.foldl_map (distPair balance (edictDestinations env).length)
          (allocApply env id) (edictDestinations env).enum
          (balance, alloc)).symm
      rw [hconv]
      have hlen : 0 < (edictDestinations env).length := by
        cases hd : edictDestinations env with
        | nil => rw [hd] at hemp; simp at hemp
        | cons a t => exact Nat.succ_pos t.length
      have hfst : (((edictDestinations env).enum.map
            (distPair balance (edictDestinations env).length)).map
              Prod.fst) =
          (List.range (edictDestinations env).length).map
            (fun i => if i < balance % (edictDestinations env).length then
              balance / (edictDestinations env).length + 1
            else balance / (edictDestinations env).length) := by
        rw [List.map_map, ← List.enum_map_fst (edictDestinations env),
          List.map_map]
        rfl
      have hsumle : ((((edictDestinations env).enum.map
            (distPair balance (edictDestinations env).length)).map
              Prod.fst)).sum ≤ balance := by
        rw [hfst, sum_if_lt]
        have hmod : balance % (edictDestinations env).length <
            (edictDestinations env).length := Nat.mod_lt balance hlen
        have hdm := Nat.div_add_mod balance (edictDestinations env).length
        rw [Nat.mul_comm]
        omega
      have houts : ∀ ao ∈ (edictDestinations env).enum.map
          (distPair balance (edictDestinations env).length),
          ao.2 < env.outputs.length := by
        intro ao hao
        have h2 : ao.2 ∈ ((edictDestinations env).enum.map
            (distPair balance (edictDestinations env).length)).map Prod.snd :=
          List.mem_map_of_mem Prod.snd hao
        have hsnd : ((edictDestinations env).enum.map
            (distPair balance (edictDestinations env).length)).map Prod.snd =
            edictDestinations env := by
          rw [List.map_map]
          exact List.enum_map_snd (edictDestinations env)
        rw [hsnd] at h2
        exact edictDestinations_lt env ao.2 h2
      exact allocPairsFold_conserve env id
        ((edictDestinations env).enum.map
          (distPair balance (edictDestinations env).length))
        (balance, alloc) hsumle houts
    · have hres : edictAllocateAll env id amount balance alloc =
          (edictDestinations env).foldl
            (fun (p : Nat × (Nat → RuneId → Nat)) out =>
              allocateStep env id (min amount p.1) out p.1 p.2)
            (balance, alloc) := by
        simp only [edictAllocateAll]
        rw [if_neg hemp, if_neg hamt]
      rw [hres]
      exact allocMinFold_conserve env id amount (edictDestinations env)
        (balance, alloc) (fun o ho => edictDestinations_lt env o ho)

lemma edictMintPhase_conserve (fetch : OutPoint → Option Script) (h : HashFn)
    (ctx : AuthorityContext) (inputs : List OutPoint)
    (amount balance extra : Nat) (row : Option Nat) :
    (edictMintPhase fetch h ctx inputs amount balance extra row).1 + extra =
      balance +
        (edictMintPhase fetch h ctx inputs amount balance extra row).2.1 := by
  simp only [edictMintPhase]
  split_ifs <;>
    first
      | rfl
      | (show balance + (amount - balance) + extra =
            balance + (extra + (amount - balance));
         omega)

lemma edict_final_conserve (n : Nat) (st : EdictState) (id : RuneId)
    (B0 Bf mExtra : Nat) (Af : Nat → RuneId → Nat)
    (hm : B0 + st.extra id = st.unalloc id + mExtra)
    (hB : Bf + allocSumN n Af id = B0 + allocSumN n st.alloc id)
    (hA : ∀ r, r ≠ id → allocSumN n Af r = allocSumN n st.alloc r)
    (r : RuneId) :
    Function.update st.unalloc id Bf r + allocSumN n Af r + st.extra r =
      st.unalloc r + allocSumN n st.alloc r +
        Function.update st.extra id mExtra r := by
  by_cases hr : r = id
  · subst hr
    rw [Function.update_same, Function.update_same]
    omega
  · rw [Function.update_noteq hr, Function.update_noteq hr, hA r hr]

lemma processEdict_conserve (env : TxEnv) (etched : Option RuneId)
    (st : EdictState) (e : Edict) (r : RuneId) :
    (processEdict env etched st e).unalloc r +
        allocSumN env.outputs.length (processEdict env etched st e).alloc r +
        st.extra r =
      st.unalloc r + allocSumN env.outputs.length st.alloc r +
        (processEdict env etched st e).extra r := by
  by_cases hout : e.output > env.outputs.length
  · have hres : processEdict env etched st e = st := by
      simp only [processEdict]
      rw [if_pos hout]
    rw [hres]
  · cases hid : (if e.id = RuneId.zero then etched else some e.id) with
    | none =>
      have hres : processEdict env etched st e = st := by
        simp only [processEdict, hid]
        rw [if_neg hout]
      rw [hres]
    | some id =>
      have hm := edictMintPhase_conserve env.fetch env.hashFn (env.ctxOf id)
        env.inputs e.amount (st.unalloc id) (st.extra id) (st.extraRow id)
      by_cases hlen : e.output = env.outputs.length
      · have hres : processEdict env etched st e =
            ⟨Function.update st.unalloc id
                (edictAllocateAll env id e.amount
                  (edictMintPhase env.fetch env.hashFn (env.ctxOf id)
                    env.inputs e.amount (st.unalloc id) (st.extra id)
                    (st.extraRow id)).1 st.alloc).1,
              (edictAllocateAll env id e.amount
                (edictMintPhase env.fetch env.hashFn (env.ctxOf id)
                  env.inputs e.amount (st.unalloc id) (st.extra id)
                  (st.extraRow id)).1 st.alloc).2,
              Function.update st.extra id
                (edictMintPhase env.fetch env.hashFn (env.ctxOf id)
                  env.inputs e.amount (st.unalloc id) (st.extra id)
                  (st.extraRow id)).2.1,
              Function.update st.extraRow id
                (edictMintPhase env.fetch env.hashFn (env.ctxOf id)
                  env.inputs e.amount (st.unalloc id) (st.extra id)
                  (st.extraRow id)).2.2⟩ := by
          simp only [processEdict, hid]
          rw [if_neg hout, if_pos hlen]
        rw [hres]
        have hall := edictAllocateAll_conserve env id e.amount
          (edictMintPhase env.fetch env.hashFn (env.ctxOf id) env.inputs
            e.amount (st.unalloc id) (st.extra id) (st.extraRow id)).1 st.alloc
        exact edict_final_conserve env.outputs.length st id
          (edictMintPhase env.fetch env.hashFn (env.ctxOf id) env.inputs
            e.amount (st.unalloc id) (st.extra id) (st.extraRow id)).1
          (edictAllocateAll env id e.amount
            (edictMintPhase env.fetch env.hashFn (env.ctxOf id) env.inputs
              e.amount (st.unalloc id) (st.extra id) (st.extraRow id)).1
            st.alloc).1
          (edictMintPhase env.fetch env.hashFn (env.ctxOf id) env.inputs
            e.amount (st.unalloc id) (st.extra id) (st.extraRow id)).2.1
          (edictAllocateAll env id e.amount
            (edictMintPhase env.fetch env.hashFn (env.ctxOf id) env.inputs
              e.amount (st.unalloc id) (st.extra id) (st.extraRow id)).1
            st.alloc).2
          hm hall.1 hall.2 r
      · have hout2 : e.output < env.outputs.length := by omega
        have hres : processEdict env etched st e =
            ⟨Function.update st.unalloc id
                (allocateStep env id
                  (if e.amount = 0 then
                    (edictMintPhase env.fetch env.hashFn (env.ctxOf id)
                      env.inputs e.amount (st.unalloc id) (st.extra id)
                      (st.extraRow id)).1
                  else min e.amount
                    (edictMintPhase env.fetch env.hashFn (env.ctxOf id)
                      env.inputs e.amount (st.unalloc id) (st.extra id)
                      (st.extraRow id)).1)
                  e.output
                  (edictMintPhase env.fetch env.hashFn (env.ctxOf id)
                    env.inputs e.amount (st.unalloc id) (st.extra id)
                    (st.extraRow id)).1 st.alloc).1,
              (allocateStep env id
                (if e.amount = 0 then
                  (edictMintPhase env.fetch env.hashFn (env.ctxOf id)
                    env.inputs e.amount (st.unalloc id) (st.extra id)
                    (st.extraRow id)).1
                else min e.amount
                  (edictMintPhase env.fetch env.hashFn (env.ctxOf id)
                    env.inputs e.amount (st.unalloc id) (st.extra id)
                    (st.extraRow id)).1)
                e.output
                (edictMintPhase env.fetch env.hashFn (env.ctxOf id)
                  env.inputs e.amount (st.unalloc id) (st.extra id)
                  (st.extraRow id)).1 st.alloc).2,
              Function.update st.extra id
                (edictMintPhase env.fetch env.hashFn (env.ctxOf id)
                  env.inputs e.amount (st.unalloc id) (st.extra id)
                  (st.extraRow id)).2.1,
              Function.update st.extraRow id
                (edictMintPhase env.fetch env.hashFn (env.ctxOf id)
                  env.inputs e.amount (st.unalloc id) (st.extra id)
                  (st.extraRow id)).2.2⟩ := by
          simp only [processEdict, hid]
          rw [if_neg hout, if_neg hlen]
        rw [hres]
        have ham : (if e.amount = 0 then
              (edictMintPhase env.fetch env.hashFn (env.ctxOf id) env.inputs
                e.amount (st.unalloc id) (st.extra id) (st.extraRow id)).1
            else min e.amount
              (edictMintPhase env.fetch env.hashFn (env.ctxOf id) env.inputs
                e.amount (st.unalloc id) (st.extra id) (st.extraRow id)).1) ≤
            (edictMintPhase env.fetch env.hashFn (env.ctxOf id) env.inputs
              e.amount (st.unalloc id) (st.extra id) (st.extraRow id)).1 := by
          split_ifs <;> omega
        have hstep := allocateStep_conserve env id
          (if e.amount = 0 then
            (edictMintPhase env.fetch env.hashFn (env.ctxOf id) env.inputs
              e.amount (st.unalloc id) (st.extra id) (st.extraRow id)).1
          else min e.amount
            (edictMintPhase env.fetch env.hashFn (env.ctxOf id) env.inputs
              e.amount (st.unalloc id) (st.extra id) (st.extraRow id)).1)
          e.output
          (edictMintPhase env.fetch env.hashFn (env.ctxOf id) env.inputs
            e.amount (st.unalloc id) (st.extra id) (st.extraRow id)).1
          st.alloc ham hout2
        exact edict_final_conserve env.outputs.length st id
          (edictMintPhase env.fetch env.hashFn (env.ctxOf id) env.inputs
            e.amount (st.unalloc id) (st.extra id) (st.extraRow id)).1
          (allocateStep env id
            (if e.amount = 0 then
              (edictMintPhase env.fetch env.hashFn (env.ctxOf id) env.inputs
                e.amount (st.unalloc id) (st.extra id) (st.extraRow id)).1
            else min e.amount
              (edictMintPhase env.fetch env.hashFn (env.ctxOf id) env.inputs
                e.amount (st.unalloc id) (st.extra id) (st.extraRow id)).1)
            e.output
            (edictMintPhase env.fetch env.hashFn (env.ctxOf id) env.inputs
              e.amount (st.unalloc id) (st.extra id) (st.extraRow id)).1
            st.alloc).1
          (edictMintPhase env.fetch env.hashFn (env.ctxOf id) env.inputs
            e.amount (st.unalloc id) (st.extra id) (st.extraRow id)).2.1
          (allocateStep env id
            (if e.amount = 0 then
              (edictMintPhase env.fetch env.hashFn (env.ctxOf id) env.inputs
                e.amount (st.unalloc id) (st.extra id) (st.extraRow id)).1
            else min e.amount
              (edictMintPhase env.fetch env.hashFn (env.ctxOf id) env.inputs
                e.amount (st.unalloc id) (st.extra id) (st.extraRow id)).1)
            e.output
            (edictMintPhase env.fetch env.hashFn (env.ctxOf id) env.inputs
              e.amount (st.unalloc id) (st.extra id) (st.extraRow id)).1
            st.alloc).2
          hm hstep.1 hstep.2 r

lemma processEdicts_conserve (env : TxEnv) (etched : Option RuneId)
    (edicts : List Edict) :
    ∀ (st : EdictState) (r : RuneId),
    (edicts.foldl (processEdict env etched) st).unalloc r +
        allocSumN env.outputs.length
          (edicts.foldl (processEdict env etched) st).alloc r + st.extra r =
      st.unalloc r + allocSumN env.outputs.length st.alloc r +
        (edicts.foldl (processEdict env etched) st).extra r := by
  induction edicts with
  | nil => intro st r; rfl
  | cons e rest ih =>
    intro st r
    rw [List.foldl_cons]
    have h1 := processEdict_conserve env etched st e r
    have h2 := ih (processEdict env etched st e) r
    omega

lemma defaultVout_lt (env : TxEnv) (pointer : Option Nat) (v : Nat)
    (h : defaultVout env pointer = some v) : v < env.outputs.length := by
  cases pointer with
  | some p =>
    by_cases hlt : p < env.outputs.length
    · simp only [defaultVout, if_pos hlt] at h
      rw [Option.some.injEq] at h
      omega
    · simp only [defaultVout, if_neg hlt] at h
      have hm := List.mem_of_find?_eq_some h
      exact List.mem_range.mp hm
  | none =>
    simp only [defaultVout] at h
    have hm := List.mem_of_find?_eq_some h
    exact List.mem_range.mp hm

lemma pcb_split (env : TxEnv) (isCen : Bool) (pointer : Option Nat)
    (unalloc : RuneId → Nat) (alloc : Nat → RuneId → Nat) (r : RuneId) :
    writtenSumN env.outputs.length
        (processCenotaphAndBalances env isCen pointer unalloc alloc).1 r +
      (processCenotaphAndBalances env isCen pointer unalloc alloc).2 r =
      (sweptPair env isCen pointer unalloc alloc).2 r +
        allocSumN env.outputs.length
          (sweptPair env isCen pointer unalloc alloc).1 r := by
  simp only [processCenotaphAndBalances, writtenSumN, allocSumN]
  have hsplit := sum_map_split (List.range env.outputs.length)
    (fun v => (sweptPair env isCen pointer unalloc alloc).1 v r)
    (fun v => if v < env.outputs.length ∧
        ¬ (env.outputs.getD v []).isOpReturn then
      (sweptPair env isCen pointer unalloc alloc).1 v r else 0)
    (fun v => if (env.outputs.getD v []).isOpReturn then
      (sweptPair env isCen pointer unalloc alloc).1 v r else 0)
    (by
      intro v hv
      rw [List.mem_range] at hv
      beta_reduce
      by_cases hop : (env.outputs.getD v []).isOpReturn = true
      · rw [if_neg (fun hc => hc.2 hop), if_pos hop]
        omega
      · rw [if_pos ⟨hv, hop⟩, if_neg hop]
        omega)
  omega

lemma sweptPair_conserve (env : TxEnv) (isCen : Bool) (pointer : Option Nat)
    (unalloc : RuneId → Nat) (alloc : Nat → RuneId → Nat) (r : RuneId) :
    (sweptPair env isCen pointer unalloc alloc).2 r +
        allocSumN env.outputs.length
          (sweptPair env isCen pointer unalloc alloc).1 r +
        droppedByBlacklistedDefault env isCen pointer unalloc r =
      unalloc r + allocSumN env.outputs.length alloc r := by
  cases isCen with
  | true =>
    have hs2 : (sweptPair env true pointer unalloc alloc).2 r = unalloc r := by
      simp [sweptPair]
    have hs1 : ∀ v2, (sweptPair env true pointer unalloc alloc).1 v2 r =
        alloc v2 r := by
      intro v2
      simp [sweptPair]
    have hsum : allocSumN env.outputs.length
        (sweptPair env true pointer unalloc alloc).1 r =
        allocSumN env.outputs.length alloc r := rfl
    have hdrop : droppedByBlacklistedDefault env true pointer unalloc r = 0 := by
      simp [droppedByBlacklistedDefault]
    rw [hs2, hsum, hdrop]
    omega
  | false =>
    cases hdv : defaultVout env pointer with
    | none =>
      have hs2 : (sweptPair env false pointer unalloc alloc).2 r =
          if unalloc r > 0 then unalloc r else 0 := by
        simp [sweptPair, hdv]
      have hs1 : ∀ v2, (sweptPair env false pointer unalloc alloc).1 v2 r =
          alloc v2 r := by
        intro v2
        simp [sweptPair, hdv]
      have hsum : allocSumN env.outputs.length
          (sweptPair env false pointer unalloc alloc).1 r =
          allocSumN env.outputs.length alloc r := by
        simp only [allocSumN]
        congr 1
        apply List.map_congr_left
        intro i _
        exact hs1 i
      have hdrop : droppedByBlacklistedDefault env false pointer unalloc r =
          0 := by
        simp [droppedByBlacklistedDefault, hdv]
      rw [hs2, hsum, hdrop]
      split_ifs <;> omega
    | some v =>
      have hvlt : v < env.outputs.length := defaultVout_lt env pointer v hdv
      have hs2 : (sweptPair env false pointer unalloc alloc).2 r = 0 := by
        simp [sweptPair, hdv]
      by_cases h0 : unalloc r = 0
      · have hs1 : ∀ v2, (sweptPair env false pointer unalloc alloc).1 v2 r =
            alloc v2 r := by
          intro v2
          by_cases hv2 : v2 = v <;> simp [sweptPair, hdv, hv2, h0]
        have hsum : allocSumN env.outputs.length
            (sweptPair env false pointer unalloc alloc).1 r =
            allocSumN env.outputs.length alloc r := by
          simp only [allocSumN]
          congr 1
          apply List.map_congr_left
          intro i _
          exact hs1 i
        have hdrop : droppedByBlacklistedDefault env false pointer unalloc r =
            0 := by
          simp [droppedByBlacklistedDefault, hdv, h0]
        rw [hs2, hsum, hdrop]
        omega
      · by_cases hbl : Authority.isBlacklisted env.hashFn (env.ctxOf r)
            (env.outputs[v]?.getD []) = true
        · have hs1 : ∀ v2, (sweptPair env false pointer unalloc alloc).1 v2 r =
              alloc v2 r := by
            intro v2
            by_cases hv2 : v2 = v <;> simp [sweptPair, hdv, hv2, h0, hbl]
          have hsum : allocSumN env.outputs.length
              (sweptPair env false pointer unalloc alloc).1 r =
              allocSumN env.outputs.length alloc r := by
            simp only [allocSumN]
            congr 1
            apply List.map_congr_left
            intro i _
            exact hs1 i
          have hdrop : droppedByBlacklistedDefault env false pointer
              unalloc r = unalloc r := by
            simp [droppedByBlacklistedDefault, hdv, h0, hbl]
          rw [hs2, hsum, hdrop]
          omega
        · have hoff : ∀ i, i ≠ v →
              (sweptPair env false pointer unalloc alloc).1 i r = alloc i r := by
            intro i hi
            simp [sweptPair, hdv, hi]
          have hat : (sweptPair env false pointer unalloc alloc).1 v r =
              alloc v r + unalloc r := by
            simp [sweptPair, hdv, h0, hbl]
          have hsum : allocSumN env.outputs.length
              (sweptPair env false pointer unalloc alloc).1 r =
              allocSumN env.outputs.length alloc r + unalloc r := by
            simp only [allocSumN]
            exact sum_range_congr_except (fun i => alloc i r)
              (fun i => (sweptPair env false pointer unalloc alloc).1 i r)
              (unalloc r) env.outputs.length v hvlt hoff hat
          have hdrop : droppedByBlacklistedDefault env false pointer
              unalloc r = 0 := by
            simp [droppedByBlacklistedDefault, hdv, h0, hbl]
          rw [hs2, hsum, hdrop]
          omega

lemma mintCredit_apply (artifact : ArtifactModel)
    (mintRes : Option (RuneId × Nat)) (u : RuneId → Nat) (r : RuneId) :
    mintCredit artifact mintRes u r = u r + mintAddFor artifact mintRes r := by
  cases artifact with
  | noArtifact =>
    cases mintRes with
    | none => simp [mintCredit, mintAddFor]
    | some ia => simp [mintCredit, mintAddFor]
  | cenotaph =>
    cases mintRes with
    | none => simp [mintCredit, mintAddFor]
    | some ia =>
      simp only [mintCredit, mintAddFor]
      rw [Function.update_apply]
      by_cases hr : r = ia.1
      · rw [if_pos hr, if_pos hr.symm, hr]
      · rw [if_neg hr, if_neg (fun hc => hr hc.symm)]
        omega
  | runestone es ptr pm =>
    cases mintRes with
    | none => simp [mintCredit, mintAddFor]
    | some ia =>
      simp only [mintCredit, mintAddFor]
      rw [Function.update_apply]
      by_cases hr : r = ia.1
      · rw [if_pos hr, if_pos hr.symm, hr]
      · rw [if_neg hr, if_neg (fun hc => hr hc.symm)]
        omega

lemma premineCredit_apply (artifact : ArtifactModel)
    (etched : Option RuneId) (u : RuneId → Nat) (r : RuneId) :
    premineCredit artifact etched u r =
      u r + premineAddFor artifact etched r := by
  cases artifact with
  | noArtifact => cases etched <;> simp [premineCredit, premineAddFor]
  | cenotaph => cases etched <;> simp [premineCredit, premineAddFor]
  | runestone es ptr pm =>
    cases etched with
    | none => simp [premineCredit, premineAddFor]
    | some id =>
      simp only [premineCredit, premineAddFor]
      rw [Function.update_apply]
      by_cases hr : r = id
      · rw [if_pos hr, if_pos hr.symm, hr]
      · rw [if_neg hr, if_neg (fun hc => hr hc.symm)]
        omega

/-- C1 (amended).  Per-transaction balance conservation with the
blacklisted-default leak made explicit: for every transaction and every rune,
the balances decoded from the consumed input rows plus the open-mint amount,
the premine, and the authority-mint supply_extra delta equal the balances
written to the output rows plus the burned amount, plus the locked rows
rewritten under the consumed inputs, plus the amounts silently dropped by
`process_cenotaph_and_balances` when the default vout is blacklisted for the
rune.  The original equation, which omits the dropped term (expecting those
amounts to be kept with the sender on the right-hand side), is refuted by the
counterexample. -/
theorem balance_conservation (env : TxEnv) (artifact : ArtifactModel)
    (mintRes : Option (RuneId × Nat)) (etched : Option RuneId)
    (rows : List (OutPoint × Option (List (RuneId × Nat))))
    (extraRow0 : RuneId → Option Nat) (r : RuneId) :
    writtenSumN env.outputs.length
        (indexRunesBalances env artifact mintRes etched rows extraRow0).written
        r +
      (indexRunesBalances env artifact mintRes etched rows extraRow0).burned
        r +
      lockedSumFor r
        (indexRunesBalances env artifact mintRes etched rows extraRow0).locked +
      droppedByBlacklistedDefault env (artifactIsCenotaph artifact)
        (artifactPointer artifact)
        (indexRunesBalances env artifact mintRes etched rows
          extraRow0).sweepInput r +
      (env.ctxOf r).supplyExtra =
      rowsSumFor r rows + mintAddFor artifact mintRes r +
        premineAddFor artifact etched r +
        (indexRunesBalances env artifact mintRes etched rows
          extraRow0).extraFinal r := by
  simp only [indexRunesBalances]
  have hcu := calculateUnallocated_conservation (prevoutBlacklisted env) rows r
  have hedicts := processEdicts_conserve env etched (artifactEdicts artifact)
    ⟨premineCredit artifact etched (mintCredit artifact mintRes
        (calculateUnallocated (prevoutBlacklisted env) rows).1),
      fun _ _ => 0, fun id => (env.ctxOf id).supplyExtra, extraRow0⟩ r
  have hsweep1 := pcb_split env (artifactIsCenotaph artifact)
    (artifactPointer artifact)
    ((artifactEdicts artifact).foldl (processEdict env etched)
      ⟨premineCredit artifact etched (mintCredit artifact mintRes
          (calculateUnallocated (prevoutBlacklisted env) rows).1),
        fun _ _ => 0, fun id => (env.ctxOf id).supplyExtra,
        extraRow0⟩).unalloc
    ((artifactEdicts artifact).foldl (processEdict env etched)
      ⟨premineCredit artifact etched (mintCredit artifact mintRes
          (calculateUnallocated (prevoutBlacklisted env) rows).1),
        fun _ _ => 0, fun id => (env.ctxOf id).supplyExtra,
        extraRow0⟩).alloc r
  have hsweep2 := sweptPair_conserve env (artifactIsCenotaph artifact)
    (artifactPointer artifact)
    ((artifactEdicts artifact).foldl (processEdict env etched)
      ⟨premineCredit artifact etched (mintCredit artifact mintRes
          (calculateUnallocated (prevoutBlacklisted env) rows).1),
        fun _ _ => 0, fun id => (env.ctxOf id).supplyExtra,
        extraRow0⟩).unalloc
    ((artifactEdicts artifact).foldl (processEdict env etched)
      ⟨premineCredit artifact etched (mintCredit artifact mintRes
          (calculateUnallocated (prevoutBlacklisted env) rows).1),
        fun _ _ => 0, fun id => (env.ctxOf id).supplyExtra,
        extraRow0⟩).alloc r
  have hu0 : (⟨premineCredit artifact etched (mintCredit artifact mintRes
        (calculateUnallocated (prevoutBlacklisted env) rows).1),
      fun _ _ => 0, fun id => (env.ctxOf id).supplyExtra, extraRow0⟩ :
        EdictState).unalloc r =
      (calculateUnallocated (prevoutBlacklisted env) rows).1 r +
        mintAddFor artifact mintRes r + premineAddFor artifact etched r := by
    show premineCredit artifact etched (mintCredit artifact mintRes
        (calculateUnallocated (prevoutBlacklisted env) rows).1) r = _
    rw [premineCredit_apply, mintCredit_apply]
  have hex0 : (⟨premineCredit artifact etched (mintCredit artifact mintRes
        (calculateUnallocated (prevoutBlacklisted env) rows).1),
      fun _ _ => 0, fun id => (env.ctxOf id).supplyExtra, extraRow0⟩ :
        EdictState).extra r = (env.ctxOf r).supplyExtra := rfl
  have halloc0 : allocSumN env.outputs.length
      ((⟨premineCredit artifact etched (mintCredit artifact mintRes
          (calculateUnallocated (prevoutBlacklisted env) rows).1),
        fun _ _ => 0, fun id => (env.ctxOf id).supplyExtra, extraRow0⟩ :
          EdictState).alloc) r = 0 := by
    simp [allocSumN]
  omega

/-- Counterexample transaction: one input whose outpoint row carries 1000 of
rune 1:1, one output whose scriptPubKey is blacklisted for every rune, no
artifact.  The default vout exists but is blacklisted, so the 1000 runes are
dropped by the sweep. -/
def envC : TxEnv :=
  ⟨fun _ => none, hashZero,
    fun _ => loadContext hashZero none none [] [entryB] none,
    [⟨5, 0⟩], [scriptB]⟩

def rowsC : List (OutPoint × Option (List (RuneId × Nat))) :=
  [(⟨5, 0⟩, some [(⟨1, 1⟩, 1000)])]

def rC : RuneId := ⟨1, 1⟩

/-- C1 counterexample: without the dropped term the conservation equation of
the claim fails — the 1000 input runes whose default destination is
blacklisted are neither written, nor burned, nor locked, nor reflected in
supply_extra, so the left-hand side is 0 while the right-hand side is 1000. -/
theorem balance_conservation_counterexample :
    ¬ (writtenSumN envC.outputs.length
          (indexRunesBalances envC .noArtifact none none rowsC
            (fun _ => none)).written rC +
        (indexRunesBalances envC .noArtifact none none rowsC
          (fun _ => none)).burned rC +
        lockedSumFor rC (indexRunesBalances envC .noArtifact none none rowsC
          (fun _ => none)).locked +
        (envC.ctxOf rC).supplyExtra =
      rowsSumFor rC rowsC + mintAddFor .noArtifact none rC +
        premineAddFor .noArtifact none rC +
        (indexRunesBalances envC .noArtifact none none rowsC
          (fun _ => none)).extraFinal rC) := by decide

/-- Modelled from the spec: the balance rows encode integers with the
little-endian base-128 varint codec (7 payload bits per byte, high bit set on
all but the final byte); a buffer ending inside a varint fails to decode. -/
def varintDecode : List Nat → Option (Nat × List Nat)
  | [] => none
  | b :: rest =>
    if b &&& 128 = 0 then some (b &&& 127, rest)
    else
      match varintDecode rest with
      | some (v, rest2) => some ((b &&& 127) + v * 128, rest2)
      | none => none

/-- Modelled from the spec: a balance-row element is an (id, amount) pair
stored as three varints (id block, id tx, amount); `Index::decode_rune_balance`
fails on a truncated element. -/
def decodeRuneBalance (buf : List Nat) : Option ((RuneId × Nat) × List Nat) :=
  match varintDecode buf with
  | none => none
  | some (block, r1) =>
    match varintDecode r1 with
    | none => none
    | some (tx, r2) =>
      match varintDecode r2 with
      | none => none
      | some (amt, r3) => some ((⟨block, tx⟩, amt), r3)

/-- The row-decoding loop of `Allocation::calculate_unallocated`
(`while i < buffer.len() { decode_rune_balance(&buffer[i..]).unwrap(); ... }`):
`none` models the `.unwrap()` panic on a malformed element.  The fuel is the
buffer length, enough for the loop since every element consumes bytes. -/
def decodeRowGo (fuel : Nat) (buf : List Nat) : Option (List (RuneId × Nat)) :=
  match fuel, buf with
  | _, [] => some []
  | 0, _ => none
  | fuel + 1, buf =>
    match decodeRuneBalance buf with
    | none => none
    | some (e, rest) =>
      match decodeRowGo fuel rest with
      | some es => some (e :: es)
      | none => none

/-- Decoding one stored balance row; `none` models the `.unwrap()` panic. -/
def calculateUnallocatedRow (buf : List Nat) : Option (List (RuneId × Nat)) :=
  decodeRowGo buf.length buf

/-- One input of `Allocation::calculate_unallocated` over raw row buffers: an
absent row contributes nothing, a decodable row goes through the
blacklist-partitioning step, and an undecodable row aborts the whole call
(the `.unwrap()` panic propagates out of `index_runes`). -/
def calcBytesStep (isBlk : RuneId → OutPoint → Bool)
    (acc : Option ((RuneId → Nat) × List (OutPoint × List (RuneId × Nat))))
    (row : OutPoint × Option (List Nat)) :
    Option ((RuneId → Nat) × List (OutPoint × List (RuneId × Nat))) :=
  match acc with
  | none => none
  | some p =>
    match row.2 with
    | none => some (calcRowStep isBlk p (row.1, none))
    | some buf =>
      match calculateUnallocatedRow buf with
      | none => none
      | some es => some (calcRowStep isBlk p (row.1, some es))

/-- `Allocation::calculate_unallocated` over the raw stored row buffers of the
transaction's inputs; `none` models the panic on any malformed row. -/
def calculateUnallocatedBytes (isBlk : RuneId → OutPoint → Bool)
    (rows : List (OutPoint × Option (List Nat))) :
    Option ((RuneId → Nat) × List (OutPoint × List (RuneId × Nat))) :=
  rows.foldl (calcBytesStep isBlk) (some (fun _ => 0, []))

lemma calcBytes_fold_none (isBlk : RuneId → OutPoint → Bool)
    (rows : List (OutPoint × Option (List Nat))) :
    rows.foldl (calcBytesStep isBlk) none = none := by
  induction rows with
  | nil => rfl
  | cons r t ih =>
    rw [List.foldl_cons]
    have hstep : calcBytesStep isBlk none r = none := rfl
    rw [hstep, ih]

lemma calcBytes_abort (isBlk : RuneId → OutPoint → Bool) (op : OutPoint)
    (buf : List Nat) (rows2 : List (OutPoint × Option (List Nat)))
    (hbuf : calculateUnallocatedRow buf = none) :
    ∀ (rows1 : List (OutPoint × Option (List Nat)))
      (acc : Option ((RuneId → Nat) × List (OutPoint × List (RuneId × Nat)))),
    (rows1 ++ (op, some buf) :: rows2).foldl (calcBytesStep isBlk) acc =
      none := by
  intro rows1
  induction rows1 with
  | nil =>
    intro acc
    rw [List.nil_append, List.foldl_cons]
    have hstep : calcBytesStep isBlk acc (op, some buf) = none := by
      cases acc with
      | none => rfl
      | some p => simp [calcBytesStep, hbuf]
    rw [hstep]
    exact calcBytes_fold_none isBlk rows2
  | cons r t ih =>
    intro acc
    rw [List.cons_append, List.foldl_cons]
    exact ih (calcBytesStep isBlk acc r)

lemma shortBlob_scripts_empty (b : Nat) :
    (decodeAuthorityScriptsBlob [b]).1 = AuthorityScripts.empty := by
  simp only [decodeAuthorityScriptsBlob]
  rw [if_neg (by simp)]
  rcases h1 : (AuthorityBits.fromByte ([b].headD 0)).contains .Mint <;>
    rcases h2 : (AuthorityBits.fromByte ([b].headD 0)).contains .Blacklist <;>
    rcases h3 : (AuthorityBits.fromByte ([b].headD 0)).contains .Master <;>
    simp [decodeScriptsGo, authorityKindOrder, h1, h2, h3]

/-- C5 (amended).  Malformed persisted data is tolerated on the authority
read paths but not on the balance rows: a minter or blacklist multimap entry
that fails `decode_compact_entry` is skipped by context load, a one-byte
(short) authority_scripts blob decodes to no scripts, but an outpoint balance
row on which `decode_rune_balance` fails makes `calculate_unallocated` abort
(the `.unwrap()` panic) instead of skipping the element and continuing. -/
theorem malformed_persisted_data (h : HashFn) (fr : Option Nat)
    (sr : Option (List Nat)) (supplyRow : Option Nat)
    (ms bs : List (List Nat)) (e : List Nat) (b : Nat)
    (isBlk : RuneId → OutPoint → Bool)
    (rows1 rows2 : List (OutPoint × Option (List Nat))) (op : OutPoint)
    (buf : List Nat)
    (hdec : decodeCompactEntry e = none)
    (hrow : calculateUnallocatedRow buf = none) :
    (loadContext h fr sr (ms ++ [e]) bs supplyRow).minters =
        (loadContext h fr sr ms bs supplyRow).minters ∧
    (loadContext h fr sr ms (bs ++ [e]) supplyRow).blacklist =
        (loadContext h fr sr ms bs supplyRow).blacklist ∧
    (decodeAuthorityScriptsBlob [b]).1 = AuthorityScripts.empty ∧
    calculateUnallocatedBytes isBlk (rows1 ++ (op, some buf) :: rows2) =
      none := by
  refine ⟨?_, ?_, shortBlob_scripts_empty b, ?_⟩
  · simp [loadContext, List.filterMap_append, hdec]
  · simp [loadContext, List.filterMap_append, hdec]
  · exact calcBytes_abort isBlk op buf rows2 hrow rows1
      (some (fun _ => 0, []))

/-- C5 counterexample: the stored balance row `[0x80]` is an unterminated
varint; `calculate_unallocated` on a transaction consuming it aborts (models
the `.unwrap()` panic) rather than skipping the element and continuing as the
claim states. -/
theorem malformed_persisted_data_counterexample :
    decodeRuneBalance [128] = none ∧
    (calculateUnallocatedBytes (fun _ _ => false)
      [(⟨0, 0⟩, some [128])]).isNone = true := by decide

/-- C5 witness: entry `[9, 9, 9]` has an unknown kind byte and is skipped by
context load, while the row buffer `[0x80]` aborts the balance decode. -/
theorem malformed_persisted_data_witness :
    decodeCompactEntry [9, 9, 9] = none ∧
    calculateUnallocatedRow [128] = none ∧
    calculateUnallocatedBytes (fun _ _ => false)
        ([] ++ (⟨0, 0⟩, some [128]) :: []) = none :=
  ⟨rfl, rfl,
    (malformed_persisted_data hashZero none none none [] [] [9, 9, 9] 5
        (fun _ _ => false) [] [] ⟨0, 0⟩ [128] rfl rfl).2.2.2⟩
